import Mathlib

/-!
Verification of `Maytide/Minlateration` (`multilateration.py`).

Shallow embedding conventions:

* Coordinates, radii and losses are `ℚ` (Python floats; all constants in the
  source — `1.1`, `0.9`, `4.488449`, … — are exact decimals, so `ℚ` represents
  them exactly).  `sys.maxsize` is the 64-bit value `2^63 - 1`.
* `np.linalg.norm` is abstracted as a parameter `nrm : Pt → ℚ`
  (`nrm v` models `np.linalg.norm(v)`); the analytic facts about the real
  Euclidean norm are developed separately over `ℝ` at the end of the file.
* `scipy.optimize.minimize(loss_func, p0, jac=grad_j, method='SLSQP')` is
  abstracted as a parameter `minimize : List Circle → Pt → ℚ × Pt`
  (the pair `(p.fun, p.x)`); the closures `loss_func`/`grad_j` produced by
  `opt_func_dec` are functions of the cluster's circles only, so the oracle
  receives the circles and the start point.
* `np.random.uniform(low, high)` draws are `low + u * (high - low)` where the
  `u`'s are the successive unit samples of a stream `rand : ℕ → ℚ × ℚ`
  (one `(x, y)` sample pair per generated start point, consumed sequentially).
* `scipy.cluster.hierarchy.fclusterdata(points, t, criterion='distance')` is
  abstracted as a parameter `fc : ℚ → List Pt → List ℕ` (flat cluster labels,
  starting at 1 by scipy's contract).
* `get_circle_intersections` lives in `circle_intersection.py`, which is not
  among the sources; following §4.1 of the spec it is modelled as an abstract
  total function returning two intersection values (points when the case tag
  is `intersect`, sentinel booleans/markers otherwise) and a case tag.
* Python exceptions that the embedded code can raise are modelled with
  `Except PyErr`; pure in-place mutation (`circles[i][2] = ...`) is modelled
  functionally, and the aliasing discipline relevant to the frame claim is
  modelled separately with an explicit heap at the end of the file.
-/

namespace Minlat

/-- A 2-d point `[x, y]` (`pair_to_np` output). -/
abbrev Pt := ℚ × ℚ

/-- A circle record `[center, r, lat_cluster_id, label]` as used throughout
`multilateration.py` (`locate_intersections` builds them at line 480).
`lat_cluster_id` is `None` or a cluster index; the label is an opaque tag. -/
structure Circle where
  center : Pt
  radius : ℚ
  clusterId : Option ℕ
  label : Option ℕ
deriving DecidableEq, Repr

/-- The `min_fun_vals` record built by `multilat` (lines 240-245). -/
structure FunVals where
  loss : ℚ
  p : Option Pt
  circles : List Circle
  index : Option ℕ
deriving DecidableEq, Repr

/-- Default record used only to give `List.getD` a second argument where the
Python original would have raised on an out-of-range subscript. -/
def fvDefault : FunVals := ⟨0, none, [], none⟩

/-- `sys.maxsize` on a 64-bit platform. -/
def sysMaxsize : ℚ := 2 ^ 63 - 1

/-- The loss `| ||p-x|| - r |` of `single_loss` (lines 29-37), with
`np.linalg.norm` abstracted as `nrm`.  Note: the docstring of `single_loss`
claims the squared value `| ||p-x|| - r |^2`, but the code does not square. -/
def single_loss (nrm : Pt → ℚ) (p x : Pt) (r : ℚ) : ℚ :=
  |nrm (p - x) - r|

/-- Exceptions of the Python source that the embedding can surface. -/
inductive PyErr
  | assertionError
  | zeroDivisionError
  | typeError
  | indexError
deriving DecidableEq, Repr

/-- The abstract `scipy.optimize.minimize` oracle and `np.random` stream
together with the keyword parameters of `multiple_multilateration`. -/
structure Env where
  minimize : List Circle → Pt → ℚ × Pt
  rand : ℕ → ℚ × ℚ
  optTrials : ℕ
  reclusterIters : ℕ
  xlim : ℚ × ℚ
  ylim : ℚ × ℚ

/-- One `np.random.uniform(low, high)` draw from a unit sample `u`. -/
def uniformIn (lim : ℚ × ℚ) (u : ℚ) : ℚ := lim.1 + u * (lim.2 - lim.1)

/-- The random start point `np.array([uniform(*xlim), uniform(*ylim)]).T`
(line 259) from one unit sample pair. -/
def uniformPoint (xl yl : ℚ × ℚ) (u : ℚ × ℚ) : Pt :=
  (uniformIn xl u.1, uniformIn yl u.2)

/-- The start point `p0` chosen by trial `ot` of `multilat` (lines 253-259):
the seeded point for the first trial when one was supplied, otherwise the next
uniform draw.  `ridx` is the number of random samples consumed before this
`multilat` call; a seeded first trial consumes no sample, so later trials are
shifted back by one. -/
def trialP0 (rand : ℕ → ℚ × ℚ) (xl yl : ℚ × ℚ) (p0h : Option Pt) (ridx ot : ℕ) : Pt :=
  if p0h.isSome ∧ ot = 0 then p0h.getD (0, 0)
  else uniformPoint xl yl (rand (ridx + ot - (if p0h.isSome then 1 else 0)))

/-- `get_local_lims` (lines 187-204): bounding box of the circles, folded from
the `±sys.maxsize` sentinels.  Returns `((min_x, max_x), (min_y, max_y))`. -/
def get_local_lims (circles : List Circle) : (ℚ × ℚ) × (ℚ × ℚ) :=
  let f := circles.foldl
    (fun (acc : ℚ × ℚ × ℚ × ℚ) c =>
      (max (c.center.1 + c.radius) acc.1,
       min (c.center.1 - c.radius) acc.2.1,
       max (c.center.2 + c.radius) acc.2.2.1,
       min (c.center.2 - c.radius) acc.2.2.2))
    (-sysMaxsize, sysMaxsize, -sysMaxsize, sysMaxsize)
  ((f.2.1, f.1), (f.2.2.2, f.2.2.1))

/-- One trial of `multilat`'s restart loop (lines 253-267): draw/choose the
start point, run the optimizer, keep the result when it strictly improves the
running best. -/
def multilatStep (env : Env) (circles : List Circle) (xl yl : ℚ × ℚ)
    (p0h : Option Pt) (ridx : ℕ) (mfv : FunVals) (ot : ℕ) : FunVals :=
  let p0 := trialP0 env.rand xl yl p0h ridx ot
  let pr := env.minimize circles p0
  if pr.1 < mfv.loss then { mfv with loss := pr.1, p := some pr.2 } else mfv

/-- `multilat` (lines 235-270): multi-start optimization over one cluster.
Returns the best `min_fun_vals` record together with the updated count of
consumed random samples.  The stored `circles` field models
`deepcopy(circles)` (a value copy). -/
def multilat (env : Env) (circles : List Circle) (useLocal : Bool)
    (p0h : Option Pt) (ridx : ℕ) : FunVals × ℕ :=
  let lims := if useLocal then get_local_lims circles else (env.xlim, env.ylim)
  let res := (List.range env.optTrials).foldl
    (multilatStep env circles lims.1 lims.2 p0h ridx)
    ⟨sysMaxsize, none, circles, none⟩
  (res, ridx + (env.optTrials - (if p0h.isSome then 1 else 0)))

/-- The per-group loss recomputed by `argmin_p` at line 282:
`single_loss(min_fun_val['p'], center, r)`.  A `None` point would make the
Python code raise; the theorems exclude that with `p.isSome` hypotheses. -/
def lossFor (nrm : Pt → ℚ) (c : Circle) (fv : FunVals) : ℚ :=
  single_loss nrm (fv.p.getD (0, 0)) c.center c.radius

/-- `argmin_p` (lines 272-288): the running strict minimum keeps the first
group attaining the minimal loss; groups are scanned in list order and the
recorded value is the group's `index` field.  The second return value
(`second_min_lat_cluster`) is unused by every caller and omitted. -/
def argmin_p (nrm : Pt → ℚ) (circle : Circle) (minFunVals : List FunVals) : Option ℕ :=
  (minFunVals.foldl
    (fun (acc : ℚ × Option ℕ) mfv =>
      if lossFor nrm circle mfv < acc.1 then (lossFor nrm circle mfv, mfv.index) else acc)
    (sysMaxsize, none)).2

/-- `reassign_circle_clusters` (lines 307-315): `circles[i][2] = argmin`,
modelled functionally (the in-place mutation is studied in the heap model). -/
def reassign_circle_clusters (nrm : Pt → ℚ) (circles : List Circle)
    (minFunVals : List FunVals) : List Circle :=
  circles.map (fun c => { c with clusterId := argmin_p nrm c minFunVals })

/-- The partition loop of lines 347-349: `lat_clusters[lat_cluster_id].append`.
Appending in list order is the same as filtering by cluster id; a `None` or
out-of-range id would make Python raise, which the theorems exclude by
cluster-id validity hypotheses/invariants. -/
def partitionClusters (num : ℕ) (circles : List Circle) : List (List Circle) :=
  (List.range num).map (fun k => circles.filter (fun c => c.clusterId = some k))

/-- The `use_local_lims=i>=max(2, recluster_iters/4)` condition of line 381
(`/` is Python true division). -/
def useLocalLims (i iters : ℕ) : Bool :=
  decide (max 2 ((iters : ℚ) / 4) ≤ (i : ℚ))

/-- The `p0_from_hcluster=p0_list[j] if i == 0 else None` argument of line 382. -/
def p0FromHcluster (p0List : List Pt) (i j : ℕ) : Option Pt :=
  if i = 0 then some (p0List.getD j (0, 0)) else none

/-- The record built for a cluster left empty at iteration 0 (lines 366-376):
sentinel loss, the hierarchical-clustering centroid as point, no circles. -/
def emptyClusterVals (p0List : List Pt) (j : ℕ) : FunVals :=
  ⟨sysMaxsize, some (p0List.getD j (0, 0)), [], some j⟩

/-- The body of the per-cluster loop of lines 353-384 for cluster `j`:
carry the previous record for a cluster emptied after iteration 0, build the
sentinel record for a cluster empty at iteration 0, otherwise solve. -/
def solveGroupEntry (env : Env) (p0List : List Pt) (i j : ℕ)
    (prev : List FunVals) (cluster : List Circle) (ridx : ℕ) : FunVals × ℕ :=
  if cluster = [] ∧ 0 < i then (prev.getD j fvDefault, ridx)
  else if cluster = [] then (emptyClusterVals p0List j, ridx)
  else
    let mr := multilat env cluster (useLocalLims i env.reclusterIters)
      (p0FromHcluster p0List i j) ridx
    ({ mr.1 with index := some j }, mr.2)

/-- The per-cluster loop of lines 353-384, one entry appended per cluster in
index order (`j` is the running cluster index, `ridx` the running count of
consumed random samples). -/
def solveGroupsAux (env : Env) (p0List : List Pt) (i : ℕ) (prev : List FunVals) :
    List (List Circle) → ℕ → ℕ → List FunVals × ℕ
  | [], _, ridx => ([], ridx)
  | cl :: rest, j, ridx =>
    let e := solveGroupEntry env p0List i j prev cl ridx
    let r := solveGroupsAux env p0List i prev rest (j + 1) e.2
    (e.1 :: r.1, r.2)

/-- The full `min_fun_vals_list` of one reclustering iteration. -/
def solveGroups (env : Env) (p0List : List Pt) (i : ℕ)
    (clusters : List (List Circle)) (prev : List FunVals) (ridx : ℕ) :
    List FunVals × ℕ :=
  solveGroupsAux env p0List i prev clusters 0 ridx

/-- The mutable state of the reclustering loop of lines 341-400. -/
structure MMState where
  circles : List Circle
  vals : List FunVals
  ridx : ℕ
  bestLoss : ℚ
  bestVals : Option (List FunVals)

/-- One iteration of the loop (lines 345-400): partition, per-cluster solve,
best-snapshot tracking (`deepcopy` is a value copy here), reassignment. -/
def mmStep (env : Env) (nrm : Pt → ℚ) (num : ℕ) (p0List : List Pt) (i : ℕ)
    (s : MMState) : MMState :=
  let latClusters := partitionClusters num s.circles
  let sg := solveGroups env p0List i latClusters s.vals s.ridx
  let total := (sg.1.map FunVals.loss).sum
  let best := if total < s.bestLoss then (total, some sg.1) else (s.bestLoss, s.bestVals)
  ⟨reassign_circle_clusters nrm s.circles sg.1, sg.1, sg.2, best.1, best.2⟩

/-- The state after `k` iterations of the reclustering loop, starting from the
(seeded) circle list, an empty `min_fun_vals_list`, and the
`best_total_loss = sys.maxsize` / `best_fun_vals_list = None` sentinels. -/
def mmStates (env : Env) (nrm : Pt → ℚ) (num : ℕ) (p0List : List Pt)
    (c0 : List Circle) : ℕ → MMState
  | 0 => ⟨c0, [], 0, sysMaxsize, none⟩
  | k + 1 => mmStep env nrm num p0List k (mmStates env nrm num p0List c0 k)

/-- The `total_loss` of iteration `i` (lines 386-388). -/
def iterTotal (env : Env) (nrm : Pt → ℚ) (num : ℕ) (p0List : List Pt)
    (c0 : List Circle) (i : ℕ) : ℚ :=
  (((mmStates env nrm num p0List c0 (i + 1)).vals).map FunVals.loss).sum

/-- A loop state at which the Python source hits no exception: every circle's
cluster id is an integer in `[0, num)` (so the partition subscripts of line
349 are in range) and every group record holds a point (so `argmin_p`'s
`single_loss(min_fun_val['p'], …)` at line 282 gets an array, not `None`). -/
def stateOk (num : ℕ) (s : MMState) : Prop :=
  (∀ c ∈ s.circles, ∃ k, c.clusterId = some k ∧ k < num) ∧
  (∀ fv ∈ s.vals, fv.p.isSome = true)

/-! ### The circle-intersection collaborator (spec-modelled)

`get_circle_intersections` is defined in `circle_intersection.py`, which is not
among the sources; §4.1 of the spec fixes only its interface.  Modelled from
the spec: an abstract total function of two circles returning two intersection
values — points when the case tag is `intersect`, sentinel booleans otherwise
(in the `contained` case the boolean marks the containing circle, see lines
141-147 and 172-173) — and a case tag (the source spells `'seperate'`). -/

/-- Case tags returned by `get_circle_intersections`. -/
inductive IxCase
  | intersect
  | seperate
  | contained
  | coincident
deriving DecidableEq, Repr

/-- The triple `(ix0, ix1, case)` returned by `get_circle_intersections`. -/
structure IxRes where
  ix0 : Pt ⊕ Bool
  ix1 : Pt ⊕ Bool
  tag : IxCase
deriving DecidableEq, Repr

/-- Point payload of an intersection value (only consulted when the case tag
is `intersect`, where the spec guarantees genuine points). -/
def sumPt (v : Pt ⊕ Bool) : Pt := Sum.elim id (fun _ => (0, 0)) v

/-- The abstract `get_circle_intersections`. -/
abbrev IxOracle := Circle → Circle → IxRes

/-! ### Cluster-count estimation (`determine_num_lat_clusters`, lines 80-185) -/

/-- The abstract `hcluster.fclusterdata(points, threshold, criterion='distance',
metric='euclidean')`: flat cluster labels, one per observation. -/
abbrev FCOracle := ℚ → List Pt → List ℕ

/-- The points contributed to `hcluster_points` by the pairs `(circle0, c1)`
for `c1` ranging over the circles after `circle0` (lines 139-181): true
intersections are kept; a `seperate` pair is retried with both radii expanded
by 1.1; a `contained` pair is retried with the containing circle (marked by a
`True` sentinel) shrunk to 0.9 and the other expanded to 1.1. -/
def pairPoints (ix : IxOracle) (c0 : Circle) (rest : List Circle) : List Pt :=
  rest.foldl
    (fun acc c1 =>
      let r := ix c0 c1
      match r.tag with
      | IxCase.seperate =>
        let e0 : Circle := ⟨c0.center, 11/10 * c0.radius, c0.clusterId, none⟩
        let e1 : Circle := ⟨c1.center, 11/10 * c1.radius, c1.clusterId, none⟩
        let r2 := ix e0 e1
        if r2.tag = IxCase.intersect then acc ++ [sumPt r2.ix0, sumPt r2.ix1] else acc
      | IxCase.contained =>
        let f0 : ℚ := if r.ix0 = Sum.inr true then 9/10 else 11/10
        let f1 : ℚ := if r.ix1 = Sum.inr true then 9/10 else 11/10
        let e0 : Circle := ⟨c0.center, f0 * c0.radius, c0.clusterId, none⟩
        let e1 : Circle := ⟨c1.center, f1 * c1.radius, c1.clusterId, none⟩
        let r2 := ix e0 e1
        if r2.tag = IxCase.intersect then acc ++ [sumPt r2.ix0, sumPt r2.ix1] else acc
      | IxCase.intersect => acc ++ [sumPt r.ix0, sumPt r.ix1]
      | IxCase.coincident => acc)
    []

/-- The pair loop of lines 130-181 building `hcluster_points` and
`circle_point_id_list`: each circle contributes its center (recording the
running `point_count` as that center's index) followed by the pair points with
all later circles. -/
def hclusterAux (ix : IxOracle) : List Circle → ℕ → List Pt × List ℕ
  | [], _ => ([], [])
  | c0 :: rest, cnt =>
    let pp := pairPoints ix c0 rest
    let r := hclusterAux ix rest (cnt + 1 + pp.length)
    (c0.center :: (pp ++ r.1), cnt :: r.2)

/-- Mean of a point cluster (lines 108-114): componentwise sum divided by the
cluster size. -/
def ptMean (l : List Pt) : Pt :=
  let s := l.foldl (· + ·) ((0 : ℚ), (0 : ℚ))
  (s.1 / l.length, s.2 / l.length)

/-- `perform_hcluster` (lines 88-117).  A single point short-circuits to one
cluster; otherwise the scipy labels are shifted to start at 0, the cluster
count is the maximal label plus one, and per-cluster means are computed.
An empty observation set makes scipy raise (modelled as an error), and an
empty cluster would make `cluster[0]` raise `IndexError` at line 110. -/
def perform_hcluster (fc : FCOracle) (threshold : ℚ) (points : List Pt) :
    Except PyErr (ℕ × List ℕ × List Pt) :=
  match points with
  | [] => .error PyErr.indexError
  | [p] => .ok (1, [0], [p])
  | _ =>
    let enum := (fc threshold points).map (· - 1)
    let num := enum.foldl max 0 + 1
    let latClusters := (List.range num).map
      (fun k => ((points.zip enum).filter (fun pe => pe.2 = k)).map Prod.fst)
    if latClusters.any List.isEmpty then .error PyErr.indexError
    else .ok (num, enum, latClusters.map ptMean)

/-- `determine_num_lat_clusters` (lines 80-185). -/
def determine_num_lat_clusters (ix : IxOracle) (fc : FCOracle)
    (circles : List Circle) (threshold : ℚ) :
    Except PyErr (ℕ × List ℕ × List Pt × List ℕ) :=
  match perform_hcluster fc threshold ((hclusterAux ix circles 0).1) with
  | .error e => .error e
  | .ok (num, enum, means) => .ok (num, enum, means, (hclusterAux ix circles 0).2)

/-- The seeding loop of lines 330-335:
`circles_copy[circle_i][2] = enum_clusters[circle_point_id]` for
`circle_i, circle_point_id in zip(range(num_circles), circle_point_id_list)`
(a Python `zip` truncates, so circles beyond the id list stay untouched). -/
def seedClusterIds (circles : List Circle) (enum : List ℕ) (ids : List ℕ) :
    List Circle :=
  (circles.zip (List.range circles.length)).map
    (fun ci =>
      if ci.2 < ids.length then
        { ci.1 with clusterId := some (enum.getD (ids.getD ci.2 0) 0) }
      else ci.1)

/-! ### Ambiguity resolution (lines 437-461) -/

/-- `np.average` of a list of rationals. -/
def np_average (l : List ℚ) : ℚ := l.sum / l.length

/-- The `'p+'` list built for one `best_fun_vals` record (lines 439-461):
a cluster whose member circles all share one center (the single-circle case
included) reports that center with 0.9 times the average member radius;
a two-circle cluster reports the pair's direct intersections when they
intersect and the solved point otherwise; every other cluster reports the
solved point.  The stored points model the Python values (`best_fun_vals['p']`
may be `None`, hence `Option Pt`). -/
def resolveAmbiguity (ix : IxOracle) (highlightRadius : ℚ) (fv : FunVals) :
    List (Option Pt × ℚ) :=
  let centers := fv.circles.map Circle.center
  let radii := fv.circles.map Circle.radius
  if 1 ≤ fv.circles.length ∧ ∀ c ∈ centers, c = centers.getD 0 (0, 0) then
    [(some (centers.getD 0 (0, 0)), 9/10 * np_average radii)]
  else if fv.circles.length = 2 then
    match fv.circles with
    | c0 :: c1 :: _ =>
      let r := ix c0 c1
      if r.tag = IxCase.intersect then
        [(some (sumPt r.ix0), highlightRadius), (some (sumPt r.ix1), highlightRadius)]
      else [(fv.p, highlightRadius)]
    | _ => [(fv.p, highlightRadius)]
  else [(fv.p, highlightRadius)]

/-! ### `multiple_multilateration` (lines 206-463) and
`locate_intersections` (lines 465-513) -/

/-- `multiple_multilateration` on the live path `num_lat_clusters=None`
(lines 324-337 then 341-463): estimate the cluster count, seed the circles'
cluster ids and the centroids, run the reclustering loop, and resolve each
best record into its `'p+'` list (modelled as a pair rather than a mutated
key).  When `num_lat_clusters` is supplied instead, `p0_list` stays `None`
and iteration 0 raises `TypeError` subscripting it at line 370/382; callers
that want that path are modelled at `locate_intersections`. -/
def multiple_multilateration (env : Env) (nrm : Pt → ℚ) (ix : IxOracle)
    (fc : FCOracle) (circles_ref : List Circle) (threshold highlightRadius : ℚ) :
    Except PyErr (List (FunVals × List (Option Pt × ℚ)) × ℚ) :=
  match determine_num_lat_clusters ix fc circles_ref threshold with
  | .error e => .error e
  | .ok (num, enum, means, ids) =>
    let circles0 := seedClusterIds circles_ref enum ids
    let s := mmStates env nrm num means circles0 env.reclusterIters
    let best := s.bestVals.getD s.vals
    .ok (best.map (fun fv => (fv, resolveAmbiguity ix highlightRadius fv)), s.bestLoss)

/-- A caller-side circle `[[x, y], r]` or `[[x, y], r, label]` as accepted by
`locate_intersections` (a missing third entry and a `None` third entry both
become `label = none`). -/
structure InputCircle where
  center : Pt
  radius : ℚ
  label : Option ℕ
deriving DecidableEq, Repr

/-- The fresh internal circle list built at lines 472-481:
`[pair_to_np([x, y]), r, None, label]` for every caller circle. -/
def initCircles (l : List InputCircle) : List Circle :=
  l.map (fun c => ⟨c.center, c.radius, none, c.label⟩)

/-- The average radius `r_avg` of lines 471-482 (sum of the internal circles'
radii over their count). -/
def ravg (circles_ref : List InputCircle) : ℚ :=
  (((initCircles circles_ref).map Circle.radius).sum) / ((initCircles circles_ref).length)

/-- The effective limits of lines 485-487: the caller's when both are given,
else the local bounding box of the internal circles. -/
def locLims (circles_ref : List InputCircle) (xlimO ylimO : Option (ℚ × ℚ)) :
    (ℚ × ℚ) × (ℚ × ℚ) :=
  match xlimO, ylimO with
  | some a, some b => (a, b)
  | _, _ => get_local_lims (initCircles circles_ref)

/-- The auto clustering threshold of lines 489-503, an `Except` because
`ratio_determinant = 34 / (r_avg*3)` raises `ZeroDivisionError` when the
average radius is zero (all constants are exact decimals). -/
def locThreshold (circles_ref : List InputCircle) (thresholdOpt : Option ℚ) :
    Except PyErr ℚ :=
  match thresholdOpt with
  | some t => .ok t
  | none =>
    if ravg circles_ref = 0 then .error PyErr.zeroDivisionError
    else .ok (if (34 : ℚ) / (ravg circles_ref * 3) < 79/20
              then 4488449/1000000 * (ravg circles_ref / 3)
              else 4488449/1000000 * (ravg circles_ref / (5/2)))

/-- `locate_intersections` (lines 465-513).  The two `assert`s come first;
then the average radius, highlight radius (`r_avg / 10`), auto limits and
auto clustering threshold; the underlying solver runs with
`opt_trials=15, recluster_iters=8`.  Supplying `num_lat_clusters` leaves
every internal `cluster_id` as `None` and `p0_list` as `None`, so the first
solve iteration raises `TypeError` (lines 349/370/382). -/
def locate_intersections (M : List Circle → Pt → ℚ × Pt) (R : ℕ → ℚ × ℚ)
    (nrm : Pt → ℚ) (ix : IxOracle) (fc : FCOracle)
    (circles_ref : List InputCircle) (xlimO ylimO : Option (ℚ × ℚ))
    (numOpt : Option ℕ) (thresholdOpt : Option ℚ) :
    Except PyErr (List (FunVals × List (Option Pt × ℚ)) × ℚ × (ℚ × ℚ) × (ℚ × ℚ) × ℚ) :=
  if circles_ref = [] then .error PyErr.assertionError
  else if xlimO.isSome ≠ ylimO.isSome then .error PyErr.assertionError
  else
    match locThreshold circles_ref thresholdOpt with
    | .error e => .error e
    | .ok t =>
      match numOpt with
      | some _ => .error PyErr.typeError
      | none =>
        match multiple_multilateration
          ⟨M, R, 15, 8, (locLims circles_ref xlimO ylimO).1,
            (locLims circles_ref xlimO ylimO).2⟩
          nrm ix fc (initCircles circles_ref) t (ravg circles_ref / 10) with
        | .error e => .error e
        | .ok res => .ok (res.1, res.2, (locLims circles_ref xlimO ylimO).1,
            (locLims circles_ref xlimO ylimO).2, ravg circles_ref / 10)

/-! ### Heap model of the aliasing discipline

The in-place mutations of the source (`circles[i][2] = min_lat_cluster` at
line 313, acting on `circles_copy`) are invisible in the functional model, so
the frame claim about the caller's list is settled against an explicit heap:
circle records live at addresses, `locate_intersections` builds its internal
list at fresh addresses (line 480), `multiple_multilateration` deep-copies it
to further fresh addresses (line 227), and every reassignment writes through
the copy's addresses only.  The values written are the ones computed by the
functional model above. -/

/-- A heap of circle records addressed by naturals. -/
abbrev Heap := ℕ → Circle

/-- Write one record. -/
def writeHeap (h : Heap) (a : ℕ) (c : Circle) : Heap :=
  fun b => if b = a then c else h b

/-- Write a batch of records. -/
def writeMany (h : Heap) (ws : List (ℕ × Circle)) : Heap :=
  ws.foldl (fun hh w => writeHeap hh w.1 w.2) h

/-- The reassignment writes of the first `k` loop iterations, through the
internal addresses `addrs2`: after iteration `i` the records hold the cluster
ids computed by the functional model (`mmStates … (i+1)`). -/
def heapIters (env : Env) (nrm : Pt → ℚ) (num : ℕ) (p0List : List Pt)
    (c0 : List Circle) (addrs2 : List ℕ) (h : Heap) : ℕ → Heap
  | 0 => h
  | k + 1 =>
    writeMany (heapIters env nrm num p0List c0 addrs2 h k)
      (addrs2.zip ((mmStates env nrm num p0List c0 (k + 1)).circles))

/-- The fresh address block used for the internal circle list of
`locate_intersections` (line 480). -/
def heapA1 (callerAddrs : List ℕ) (alloc : ℕ) : List ℕ :=
  List.range' alloc callerAddrs.length

/-- The fresh address block used for the deep copy taken by
`multiple_multilateration` (line 227). -/
def heapA2 (callerAddrs : List ℕ) (alloc : ℕ) : List ℕ :=
  List.range' (alloc + callerAddrs.length) callerAddrs.length

/-- The internal circle list (`circles_np`, cluster id `None`, line 480) read
off the caller's addresses. -/
def heapNp (h : Heap) (callerAddrs : List ℕ) : List Circle :=
  (callerAddrs.map h).map (fun c => Circle.mk c.center c.radius none c.label)

/-- The whole pipeline at the heap level.  The caller's circles sit at
`callerAddrs`, every address `≥ alloc` is free.  `locate_intersections`
allocates the internal list (cluster id `None`, line 480) at the first fresh
block, `multiple_multilateration` allocates its deep copy (line 227) at the
second fresh block, the seeding loop (lines 330-335) and the solve/reassign
loop mutate only the copy.  The run's computed values (cluster count,
centroids, reassignments) come from the functional model; when the estimator
raises, the loop never runs. -/
def locateHeapRun (env : Env) (nrm : Pt → ℚ) (ix : IxOracle) (fc : FCOracle)
    (threshold : ℚ) (h : Heap) (callerAddrs : List ℕ) (alloc : ℕ) : Heap :=
  match determine_num_lat_clusters ix fc (heapNp h callerAddrs) threshold with
  | .error _ =>
    writeMany (writeMany h ((heapA1 callerAddrs alloc).zip (heapNp h callerAddrs)))
      ((heapA2 callerAddrs alloc).zip (heapNp h callerAddrs))
  | .ok (num, enum, means, ids) =>
    heapIters env nrm num means (seedClusterIds (heapNp h callerAddrs) enum ids)
      (heapA2 callerAddrs alloc)
      (writeMany
        (writeMany (writeMany h ((heapA1 callerAddrs alloc).zip (heapNp h callerAddrs)))
          ((heapA2 callerAddrs alloc).zip (heapNp h callerAddrs)))
        ((heapA2 callerAddrs alloc).zip (seedClusterIds (heapNp h callerAddrs) enum ids)))
      env.reclusterIters

end Minlat

/-! ### The loss/jacobian builder over the reals (`opt_func_dec`, lines 29-77)

The analytic content of the gradient claim needs the genuine Euclidean norm,
so this part of the embedding is over `ℝ`. -/

namespace MinlatR

/-- `np.linalg.norm` of a 2-d vector. -/
noncomputable def norm2 (v : ℝ × ℝ) : ℝ := Real.sqrt (v.1 ^ 2 + v.2 ^ 2)

/-- `single_loss` (lines 29-37): `np.abs(np.linalg.norm(p-x) - r)`.  Its
docstring and the comment at line 61 document the squared value
`| ||p-x|| - r |^2`, but the implementation does not square. -/
noncomputable def single_loss (p x : ℝ × ℝ) (r : ℝ) : ℝ :=
  |norm2 (p - x) - r|

/-- The `loss_func` closure of `opt_func_dec` (lines 60-67): the sum of
`single_loss` over the captured circles `(x, r)`. -/
noncomputable def loss_func (xs : List ((ℝ × ℝ) × ℝ)) (p : ℝ × ℝ) : ℝ :=
  (xs.map (fun xr => single_loss p xr.1 xr.2)).sum

/-- The `jacobian` closure of `opt_func_dec` (lines 69-75):
`grad_j += 2*(d-ri) * (1/2)*(1/d) * 2*(p-xi)` with `d = norm(p-xi)`,
accumulated from `np.zeros_like(p)`. -/
noncomputable def jacobian (xs : List ((ℝ × ℝ) × ℝ)) (p : ℝ × ℝ) : ℝ × ℝ :=
  xs.foldl
    (fun g xr =>
      let d := norm2 (p - xr.1)
      g + (2 * (d - xr.2) * ((1 : ℝ) / 2) * (1 / d) * 2) • (p - xr.1))
    (0, 0)

end MinlatR

/-! ## Theorems -/

namespace Minlat

/-! #### Trial-start characterization (claim C2) -/

/-- C2 (amended): in every per-group solve, the seeded centroid is used by the
first trial at reclustering iteration 0 only; at every later iteration the
`p0_from_hcluster` argument of line 382 is `None`, so every trial — the first
included — starts from the next uniform draw; the remaining trials of
iteration 0 are uniform draws as well; and a uniform draw lies inside the
current bounding region. -/
theorem c2_trial_start_policy (rand : ℕ → ℚ × ℚ) (xl yl : ℚ × ℚ)
    (p0List : List Pt) (i j ridx ot : ℕ)
    (Hu : ∀ n, 0 ≤ (rand n).1 ∧ (rand n).1 ≤ 1 ∧ 0 ≤ (rand n).2 ∧ (rand n).2 ≤ 1)
    (Hxl : xl.1 ≤ xl.2) (Hyl : yl.1 ≤ yl.2) :
    (i = 0 → trialP0 rand xl yl (p0FromHcluster p0List i j) ridx 0 = p0List.getD j (0, 0)) ∧
    (0 < i → trialP0 rand xl yl (p0FromHcluster p0List i j) ridx ot =
      uniformPoint xl yl (rand (ridx + ot))) ∧
    (0 < ot → trialP0 rand xl yl (p0FromHcluster p0List 0 j) ridx ot =
      uniformPoint xl yl (rand (ridx + ot - 1))) ∧
    (∀ n, xl.1 ≤ (uniformPoint xl yl (rand n)).1 ∧ (uniformPoint xl yl (rand n)).1 ≤ xl.2 ∧
      yl.1 ≤ (uniformPoint xl yl (rand n)).2 ∧ (uniformPoint xl yl (rand n)).2 ≤ yl.2) := by
  refine ⟨?_, ?_, ?_, ?_⟩
  · rintro rfl
    simp [trialP0, p0FromHcluster]
  · intro hi
    have : i ≠ 0 := Nat.pos_iff_ne_zero.mp hi
    simp [trialP0, p0FromHcluster, this]
  · intro hot
    have : ot ≠ 0 := Nat.pos_iff_ne_zero.mp hot
    simp [trialP0, p0FromHcluster, this]
  · intro n
    obtain ⟨h1, h2, h3, h4⟩ := Hu n
    have hx : 0 ≤ xl.2 - xl.1 := by linarith
    have hy : 0 ≤ yl.2 - yl.1 := by linarith
    refine ⟨?_, ?_, ?_, ?_⟩ <;> simp only [uniformPoint, uniformIn]
    · nlinarith
    · nlinarith
    · nlinarith
    · nlinarith

/-- Witness for `c2_trial_start_policy`: at iteration 1, the first trial's
start is the stream's next uniform draw, for a concrete stream and region. -/
theorem c2_trial_start_policy_witness :
    trialP0 (fun _ => ((1:ℚ)/2, (1:ℚ)/2)) (0, 10) (0, 10)
      (p0FromHcluster [(5, 5)] 1 0) 0 0 =
      uniformPoint (0, 10) (0, 10) ((1:ℚ)/2, (1:ℚ)/2) :=
  (c2_trial_start_policy (fun _ => ((1:ℚ)/2, (1:ℚ)/2)) (0, 10) (0, 10) [(5, 5)] 1 0 0 0
    (fun _ => by norm_num) (by norm_num) (by norm_num)).2.1 (by norm_num)

/-- C2 (counterexample): the claim says the first of the `opt_trials` trials
starts from a deterministic carry-forward point — not a uniform-random point —
at every iteration after the first.  At iteration 1 the first trial's start is
the stream's next uniform draw: it equals `uniformPoint` of the draw and two
runs differing only in the random stream start from different points. -/
theorem c2_first_trial_not_deterministic :
    trialP0 (fun _ => ((1:ℚ)/4, (1:ℚ)/4)) (0, 10) (0, 10)
        (p0FromHcluster [(5, 5)] 1 0) 0 0 =
      uniformPoint (0, 10) (0, 10) ((1:ℚ)/4, (1:ℚ)/4) ∧
    trialP0 (fun _ => ((1:ℚ)/4, (1:ℚ)/4)) (0, 10) (0, 10)
        (p0FromHcluster [(5, 5)] 1 0) 0 0 ≠
      trialP0 (fun _ => ((3:ℚ)/4, (1:ℚ)/2)) (0, 10) (0, 10)
        (p0FromHcluster [(5, 5)] 1 0) 0 0 := by
  constructor
  · rfl
  · norm_num [trialP0, p0FromHcluster, uniformPoint, uniformIn]

/-- C7: a final group whose member circles (at least one) all share one
center resolves to exactly one result: that shared center with display radius
0.9 times the average member radius. -/
theorem c7_shared_center_result (ix : IxOracle) (hr : ℚ) (fv : FunVals) (ctr : Pt)
    (hne : fv.circles ≠ []) (hall : ∀ c ∈ fv.circles, c.center = ctr) :
    resolveAmbiguity ix hr fv =
      [(some ctr, 9/10 * np_average (fv.circles.map Circle.radius))] := by
  rcases hcs : fv.circles with _ | ⟨c, t⟩
  · exact absurd hcs hne
  · have hc : c.center = ctr := hall c (by rw [hcs]; exact List.mem_cons_self c t)
    have hgd : (fv.circles.map Circle.center).getD 0 (0, 0) = ctr := by
      rw [hcs]; simpa using hc
    have hcond : 1 ≤ fv.circles.length ∧
        ∀ p ∈ fv.circles.map Circle.center, p = (fv.circles.map Circle.center).getD 0 (0, 0) := by
      refine ⟨by rw [hcs]; simp, ?_⟩
      intro p hp
      obtain ⟨c', hc', rfl⟩ := List.mem_map.mp hp
      rw [hgd]
      exact hall c' hc'
    unfold resolveAmbiguity
    rw [if_pos hcond, hgd, hcs]

/-- Witness for `c7_shared_center_result`: the single circle
`{center (3,3), r=2}` yields exactly one result at `(3,3)` with display
radius `1.8 = 0.9 × 2`. -/
theorem c7_shared_center_result_witness :
    resolveAmbiguity (fun _ _ => ⟨Sum.inr false, Sum.inr false, IxCase.coincident⟩)
      (1/5) ⟨0, some (3, 3), [⟨(3, 3), 2, some 0, none⟩], some 0⟩ =
      [(some ((3 : ℚ), (3 : ℚ)), 9/5)] := by
  have h := c7_shared_center_result
    (fun _ _ => ⟨Sum.inr false, Sum.inr false, IxCase.coincident⟩) (1/5)
    ⟨0, some (3, 3), [⟨(3, 3), 2, some 0, none⟩], some 0⟩ (3, 3)
    (by simp) (by intro c hc; simp at hc; rw [hc])
  rw [h]
  norm_num [np_average]

/-- C8: a final group with exactly two member circles whose centers differ
resolves through the pair's direct intersection — both intersection points
with the highlight radius when the case tag is `intersect`, the solved point
alone with the highlight radius otherwise. -/
theorem c8_two_circle_resolution (ix : IxOracle) (hr : ℚ) (fv : FunVals)
    (c0 c1 : Circle) (hc : fv.circles = [c0, c1]) (hne : c0.center ≠ c1.center) :
    resolveAmbiguity ix hr fv =
      if (ix c0 c1).tag = IxCase.intersect then
        [(some (sumPt (ix c0 c1).ix0), hr), (some (sumPt (ix c0 c1).ix1), hr)]
      else [(fv.p, hr)] := by
  have hcond : ¬ (1 ≤ fv.circles.length ∧
      ∀ p ∈ fv.circles.map Circle.center, p = (fv.circles.map Circle.center).getD 0 (0, 0)) := by
    rintro ⟨-, hall⟩
    have := hall c1.center (by rw [hc]; simp)
    rw [hc] at this
    simp at this
    exact hne this.symm
  unfold resolveAmbiguity
  rw [if_neg hcond, hc]
  simp

/-- Witness for `c8_two_circle_resolution` on a concrete intersecting pair. -/
theorem c8_two_circle_resolution_witness :
    resolveAmbiguity (fun _ _ => ⟨Sum.inl (13/2, 7), Sum.inl (13/2, 3), IxCase.intersect⟩)
      (1/4) ⟨0, some (6, 5), [⟨(5, 5), 2, some 0, none⟩, ⟨(8, 5), 3, some 0, none⟩], some 0⟩ =
      [(some (((13:ℚ)/2, (7:ℚ))), 1/4), (some (((13:ℚ)/2, (3:ℚ))), 1/4)] := by
  have h := c8_two_circle_resolution
    (fun _ _ => ⟨Sum.inl (13/2, 7), Sum.inl (13/2, 3), IxCase.intersect⟩) (1/4)
    ⟨0, some (6, 5), [⟨(5, 5), 2, some 0, none⟩, ⟨(8, 5), 3, some 0, none⟩], some 0⟩
    ⟨(5, 5), 2, some 0, none⟩ ⟨(8, 5), 3, some 0, none⟩ rfl (by norm_num)
  rw [h]
  rfl

/-! ### The first-minimum characterization of `argmin_p` (claim C6) -/

/-- The running-minimum fold of `argmin_p` leaves its accumulator unchanged
when no scanned loss beats it. -/
theorem foldl_argmin_stable (f : FunVals → ℚ) :
    ∀ (l : List FunVals) (a : ℚ × Option ℕ), (∀ x ∈ l, a.1 ≤ f x) →
      l.foldl (fun acc x => if f x < acc.1 then (f x, x.index) else acc) a = a := by
  intro l
  induction l with
  | nil => intro a _; rfl
  | cons x t ih =>
    intro a h
    have hx : ¬ f x < a.1 := not_lt.mpr (h x (List.mem_cons_self x t))
    simp only [List.foldl_cons, if_neg hx]
    exact ih a (fun y hy => h y (List.mem_cons_of_mem x hy))

/-- The running-minimum fold of `argmin_p`, when some scanned loss beats the
accumulator, ends at the first list position attaining the overall minimum:
its loss is below the accumulator, no other position is strictly smaller, and
every earlier position is strictly larger. -/
theorem foldl_argmin_found (f : FunVals → ℚ) :
    ∀ (l : List FunVals) (a : ℚ × Option ℕ), (∃ x ∈ l, f x < a.1) →
      ∃ (k : ℕ) (hk : k < l.length),
        l.foldl (fun acc x => if f x < acc.1 then (f x, x.index) else acc) a
          = (f (l.get ⟨k, hk⟩), (l.get ⟨k, hk⟩).index) ∧
        f (l.get ⟨k, hk⟩) < a.1 ∧
        (∀ m (hm : m < l.length), f (l.get ⟨k, hk⟩) ≤ f (l.get ⟨m, hm⟩)) ∧
        (∀ m (hm : m < l.length), m < k → f (l.get ⟨k, hk⟩) < f (l.get ⟨m, hm⟩)) := by
  intro l
  induction l with
  | nil => rintro a ⟨x, hx, -⟩; exact absurd hx (List.not_mem_nil x)
  | cons x t ih =>
    intro a h
    by_cases hx : f x < a.1
    · simp only [List.foldl_cons, if_pos hx]
      by_cases ht : ∃ y ∈ t, f y < f x
      · obtain ⟨k, hk, heq, hlt, hmin, hfirst⟩ := ih (f x, x.index) ht
        refine ⟨k + 1, by simpa using Nat.succ_lt_succ hk, ?_, ?_, ?_, ?_⟩
        · simpa using heq
        · exact lt_trans (by simpa using hlt) hx
        · intro m hm
          cases m with
          | zero => simpa using (le_of_lt (by simpa using hlt))
          | succ m' =>
            have hm' : m' < t.length := by simpa using Nat.lt_of_succ_lt_succ hm
            simpa using hmin m' hm'
        · intro m hm hmk
          cases m with
          | zero => simpa using (by simpa using hlt : f (t.get ⟨k, hk⟩) < f x)
          | succ m' =>
            have hm' : m' < t.length := by simpa using Nat.lt_of_succ_lt_succ hm
            simpa using hfirst m' hm' (Nat.lt_of_succ_lt_succ hmk)
      · push_neg at ht
        have hstable := foldl_argmin_stable f t (f x, x.index) (fun y hy => ht y hy)
        refine ⟨0, by simp, ?_, ?_, ?_, ?_⟩
        · simpa using hstable
        · simpa using hx
        · intro m hm
          cases m with
          | zero => simp
          | succ m' =>
            have hm' : m' < t.length := by simpa using Nat.lt_of_succ_lt_succ hm
            simpa using ht (t.get ⟨m', hm'⟩) (t.get_mem m' hm')
        · intro m hm hmk
          exact absurd hmk (Nat.not_lt_zero m)
    · simp only [List.foldl_cons, if_neg hx]
      have ht : ∃ y ∈ t, f y < a.1 := by
        obtain ⟨y, hy, hlt⟩ := h
        rcases List.mem_cons.mp hy with rfl | hy'
        · exact absurd hlt hx
        · exact ⟨y, hy', hlt⟩
      obtain ⟨k, hk, heq, hlt, hmin, hfirst⟩ := ih a ht
      refine ⟨k + 1, by simpa using Nat.succ_lt_succ hk, ?_, ?_, ?_, ?_⟩
      · simpa using heq
      · simpa using hlt
      · intro m hm
        cases m with
        | zero =>
          have : f (t.get ⟨k, hk⟩) < a.1 := hlt
          simpa using le_of_lt (lt_of_lt_of_le this (not_lt.mp hx))
        | succ m' =>
          have hm' : m' < t.length := by simpa using Nat.lt_of_succ_lt_succ hm
          simpa using hmin m' hm'
      · intro m hm hmk
        cases m with
        | zero => simpa using lt_of_lt_of_le hlt (not_lt.mp hx)
        | succ m' =>
          have hm' : m' < t.length := by simpa using Nat.lt_of_succ_lt_succ hm
          simpa using hfirst m' hm' (Nat.lt_of_succ_lt_succ hmk)

/-- C6: after `reassign_circle_clusters`, each circle's `cluster_id` is the
index of the group minimizing `single_loss(group point, center, radius)`, the
first such group on exact ties.  The hypotheses: the scanned records carry
their list position in their `index` field (the loop at lines 353-384
guarantees this), and at least one group's loss is below the `sys.maxsize`
sentinel that initializes the scan. -/
theorem c6_reassign_first_argmin (nrm : Pt → ℚ) (circles : List Circle)
    (vals : List FunVals)
    (Hidx : ∀ j (hj : j < vals.length), (vals.get ⟨j, hj⟩).index = some j)
    (i : ℕ) (hi : i < circles.length)
    (Hlt : ∃ fv ∈ vals, lossFor nrm (circles.get ⟨i, hi⟩) fv < sysMaxsize) :
    ∃ (j : ℕ) (hj : j < vals.length),
      ((reassign_circle_clusters nrm circles vals).get
        ⟨i, by simpa [reassign_circle_clusters] using hi⟩).clusterId = some j ∧
      (∀ m (hm : m < vals.length),
        lossFor nrm (circles.get ⟨i, hi⟩) (vals.get ⟨j, hj⟩) ≤
          lossFor nrm (circles.get ⟨i, hi⟩) (vals.get ⟨m, hm⟩)) ∧
      (∀ m (hm : m < vals.length), m < j →
        lossFor nrm (circles.get ⟨i, hi⟩) (vals.get ⟨j, hj⟩) <
          lossFor nrm (circles.get ⟨i, hi⟩) (vals.get ⟨m, hm⟩)) := by
  set c := circles.get ⟨i, hi⟩ with hc
  obtain ⟨k, hk, heq, -, hmin, hfirst⟩ :=
    foldl_argmin_found (lossFor nrm c) vals (sysMaxsize, none) Hlt
  refine ⟨k, hk, ?_, hmin, hfirst⟩
  have hget : (reassign_circle_clusters nrm circles vals).get
      ⟨i, by simpa [reassign_circle_clusters] using hi⟩ =
      { c with clusterId := argmin_p nrm c vals } := by
    simp [reassign_circle_clusters, hc]
  rw [hget]
  show argmin_p nrm c vals = some k
  unfold argmin_p
  rw [heq]
  exact Hidx k hk

/-- Witness for `c6_reassign_first_argmin` on a two-group instance in which
both groups tie exactly: the first group wins. -/
theorem c6_reassign_first_argmin_witness :
    ∃ (j : ℕ) (hj : j < ([⟨0, some (2, 0), [], some 0⟩, ⟨0, some (-2, 0), [], some 1⟩] :
        List FunVals).length),
      ((reassign_circle_clusters (fun v => |v.1| + |v.2|) [⟨(0, 0), 1, some 0, none⟩]
          [⟨0, some (2, 0), [], some 0⟩, ⟨0, some (-2, 0), [], some 1⟩]).get
        ⟨0, by simp [reassign_circle_clusters]⟩).clusterId = some j ∧
      (∀ m (hm : m < ([⟨0, some (2, 0), [], some 0⟩, ⟨0, some (-2, 0), [], some 1⟩] :
          List FunVals).length),
        lossFor (fun v => |v.1| + |v.2|)
            (([⟨(0, 0), 1, some 0, none⟩] : List Circle).get ⟨0, by simp⟩)
            (([⟨0, some (2, 0), [], some 0⟩, ⟨0, some (-2, 0), [], some 1⟩] :
              List FunVals).get ⟨j, hj⟩) ≤
          lossFor (fun v => |v.1| + |v.2|)
            (([⟨(0, 0), 1, some 0, none⟩] : List Circle).get ⟨0, by simp⟩)
            (([⟨0, some (2, 0), [], some 0⟩, ⟨0, some (-2, 0), [], some 1⟩] :
              List FunVals).get ⟨m, hm⟩)) ∧
      (∀ m (hm : m < ([⟨0, some (2, 0), [], some 0⟩, ⟨0, some (-2, 0), [], some 1⟩] :
          List FunVals).length), m < j →
        lossFor (fun v => |v.1| + |v.2|)
            (([⟨(0, 0), 1, some 0, none⟩] : List Circle).get ⟨0, by simp⟩)
            (([⟨0, some (2, 0), [], some 0⟩, ⟨0, some (-2, 0), [], some 1⟩] :
              List FunVals).get ⟨j, hj⟩) <
          lossFor (fun v => |v.1| + |v.2|)
            (([⟨(0, 0), 1, some 0, none⟩] : List Circle).get ⟨0, by simp⟩)
            (([⟨0, some (2, 0), [], some 0⟩, ⟨0, some (-2, 0), [], some 1⟩] :
              List FunVals).get ⟨m, hm⟩)) :=
  c6_reassign_first_argmin (fun v => |v.1| + |v.2|) [⟨(0, 0), 1, some 0, none⟩]
    [⟨0, some (2, 0), [], some 0⟩, ⟨0, some (-2, 0), [], some 1⟩]
    (by
      intro j hj
      have h2 : j < 2 := by simpa using hj
      interval_cases j <;> rfl)
    0 (by simp)
    ⟨⟨0, some (2, 0), [], some 0⟩, by simp, by norm_num [lossFor, single_loss, sysMaxsize]⟩

/-! ### Positional structure of the per-iteration results (claims C4, C5) -/

/-- The per-cluster loop produces exactly one record per cluster. -/
theorem solveGroupsAux_length (env : Env) (p0List : List Pt) (i : ℕ)
    (prev : List FunVals) :
    ∀ (cls : List (List Circle)) (j ridx : ℕ),
      ((solveGroupsAux env p0List i prev cls j ridx).1).length = cls.length := by
  intro cls
  induction cls with
  | nil => intro j ridx; rfl
  | cons cl rest ih =>
    intro j ridx
    simp only [solveGroupsAux, List.length_cons]
    rw [ih]

/-- The record at position `k` of the per-cluster loop's output is the entry
computed for cluster `j0 + k`, at some consumed-sample count. -/
theorem solveGroupsAux_getD (env : Env) (p0List : List Pt) (i : ℕ)
    (prev : List FunVals) :
    ∀ (cls : List (List Circle)) (j0 ridx k : ℕ), k < cls.length →
      ∃ r, ((solveGroupsAux env p0List i prev cls j0 ridx).1).getD k fvDefault =
        (solveGroupEntry env p0List i (j0 + k) prev (cls.getD k []) r).1 := by
  intro cls
  induction cls with
  | nil => intro j0 ridx k hk; exact absurd hk (Nat.not_lt_zero k)
  | cons cl rest ih =>
    intro j0 ridx k hk
    cases k with
    | zero => exact ⟨ridx, by simp [solveGroupsAux]⟩
    | succ k' =>
      have hk' : k' < rest.length := Nat.lt_of_succ_lt_succ hk
      obtain ⟨r, hr⟩ := ih (j0 + 1)
        ((solveGroupEntry env p0List i j0 prev cl ridx).2) k' hk'
      refine ⟨r, ?_⟩
      simp only [solveGroupsAux, List.getD_cons_succ]
      rw [hr]
      have harith : j0 + 1 + k' = j0 + (k' + 1) := by omega
      rw [harith]

/-- The partition always has one group per cluster index. -/
theorem partitionClusters_length (num : ℕ) (circles : List Circle) :
    (partitionClusters num circles).length = num := by
  simp [partitionClusters]

/-- Group `j` of the partition is the sublist of circles assigned to `j`. -/
theorem partitionClusters_getD (num : ℕ) (circles : List Circle) (j : ℕ)
    (hj : j < num) :
    (partitionClusters num circles).getD j [] =
      circles.filter (fun c => c.clusterId = some j) := by
  unfold partitionClusters
  rw [List.getD_eq_getElem _ _ (by simpa using hj)]
  simp

/-- The `index` field of one per-cluster entry. -/
theorem solveGroupEntry_index (env : Env) (p0List : List Pt) (i j : ℕ)
    (prev : List FunVals) (cl : List Circle) (ridx : ℕ) :
    ((solveGroupEntry env p0List i j prev cl ridx).1).index =
      if cl = [] ∧ 0 < i then (prev.getD j fvDefault).index else some j := by
  unfold solveGroupEntry
  split_ifs with h1 h2
  · rfl
  · simp [emptyClusterVals]
  · rfl

/-- Each iteration's `min_fun_vals_list` has exactly `num` entries. -/
theorem mmStates_vals_length (env : Env) (nrm : Pt → ℚ) (num : ℕ)
    (p0List : List Pt) (c0 : List Circle) (k : ℕ) :
    ((mmStates env nrm num p0List c0 (k + 1)).vals).length = num := by
  show ((solveGroups env p0List k _ _ _).1).length = num
  unfold solveGroups
  rw [solveGroupsAux_length, partitionClusters_length]

/-- Entry `j` of each iteration's `min_fun_vals_list` carries cluster index
`j` (`min_fun_vals['index'] = j` at line 383, `'index': j` at line 373, and
the carried-forward record of line 364 inductively). -/
theorem mmStates_vals_index (env : Env) (nrm : Pt → ℚ) (num : ℕ)
    (p0List : List Pt) (c0 : List Circle) :
    ∀ k j, j < num →
      (((mmStates env nrm num p0List c0 (k + 1)).vals).getD j fvDefault).index = some j := by
  intro k
  induction k with
  | zero =>
    intro j hj
    obtain ⟨r, hr⟩ := solveGroupsAux_getD env p0List 0 [] (partitionClusters num c0)
      0 0 j (by rw [partitionClusters_length]; exact hj)
    show (((solveGroupsAux env p0List 0 [] (partitionClusters num c0) 0 0).1).getD
      j fvDefault).index = some j
    rw [hr, solveGroupEntry_index]
    simp
  | succ k ih =>
    intro j hj
    have hlen : (partitionClusters num
        ((mmStates env nrm num p0List c0 (k + 1)).circles)).length = num :=
      partitionClusters_length _ _
    obtain ⟨r, hr⟩ := solveGroupsAux_getD env p0List (k + 1)
      ((mmStates env nrm num p0List c0 (k + 1)).vals)
      (partitionClusters num ((mmStates env nrm num p0List c0 (k + 1)).circles))
      0 ((mmStates env nrm num p0List c0 (k + 1)).ridx) j (by rw [hlen]; exact hj)
    show (((solveGroupsAux env p0List (k + 1) _ _ 0 _).1).getD j fvDefault).index = some j
    rw [hr, solveGroupEntry_index]
    split_ifs with h
    · simpa using ih j hj
    · simp

/-- C5: every iteration's per-group results list has exactly
`num_lat_clusters` entries, one per cluster index in order; a group with no
assigned circles receives, at iteration 0, the sentinel-loss record with the
seeded centroid as its point and no circles (no solve is performed — the
record is `emptyClusterVals`, built without calling `multilat`), and at any
later iteration exactly its previous iteration's record, unchanged. -/
theorem c5_group_count_and_empty_policy (env : Env) (nrm : Pt → ℚ) (num : ℕ)
    (p0List : List Pt) (c0 : List Circle) (i j : ℕ) (hj : j < num) :
    ((mmStates env nrm num p0List c0 (i + 1)).vals).length = num ∧
    (((mmStates env nrm num p0List c0 (i + 1)).vals).getD j fvDefault).index = some j ∧
    ((partitionClusters num ((mmStates env nrm num p0List c0 i).circles)).getD j [] = [] →
      (i = 0 →
        ((mmStates env nrm num p0List c0 (i + 1)).vals).getD j fvDefault =
          emptyClusterVals p0List j) ∧
      (0 < i →
        ((mmStates env nrm num p0List c0 (i + 1)).vals).getD j fvDefault =
          ((mmStates env nrm num p0List c0 i).vals).getD j fvDefault)) := by
  refine ⟨mmStates_vals_length env nrm num p0List c0 i,
    mmStates_vals_index env nrm num p0List c0 i j hj, ?_⟩
  intro hempty
  have hlen : (partitionClusters num
      ((mmStates env nrm num p0List c0 i).circles)).length = num :=
    partitionClusters_length _ _
  obtain ⟨r, hr⟩ := solveGroupsAux_getD env p0List i
    ((mmStates env nrm num p0List c0 i).vals)
    (partitionClusters num ((mmStates env nrm num p0List c0 i).circles))
    0 ((mmStates env nrm num p0List c0 i).ridx) j (by rw [hlen]; exact hj)
  have hshow : ((mmStates env nrm num p0List c0 (i + 1)).vals).getD j fvDefault =
      (solveGroupEntry env p0List i (0 + j)
        ((mmStates env nrm num p0List c0 i).vals)
        ((partitionClusters num ((mmStates env nrm num p0List c0 i).circles)).getD j [])
        r).1 := hr
  rw [hshow, hempty]
  constructor
  · rintro rfl
    unfold solveGroupEntry
    simp
  · intro hi
    unfold solveGroupEntry
    rw [if_pos ⟨rfl, hi⟩]
    simp

/-- Witness for `c5_group_count_and_empty_policy`: with two clusters but every
circle assigned to cluster 0, cluster 1 is empty at iteration 0 and receives
the sentinel record with the seeded centroid. -/
theorem c5_group_count_and_empty_policy_witness :
    (((mmStates ⟨fun _ p => (0, p), fun _ => (0, 0), 1, 1, (0, 10), (0, 10)⟩
        (fun _ => 0) 2 [(1, 1), (7, 7)] [⟨(0, 0), 1, some 0, none⟩] 1).vals).length = 2) ∧
    ((((mmStates ⟨fun _ p => (0, p), fun _ => (0, 0), 1, 1, (0, 10), (0, 10)⟩
        (fun _ => 0) 2 [(1, 1), (7, 7)] [⟨(0, 0), 1, some 0, none⟩] 1).vals).getD 1
        fvDefault).index = some 1) ∧
    (((mmStates ⟨fun _ p => (0, p), fun _ => (0, 0), 1, 1, (0, 10), (0, 10)⟩
        (fun _ => 0) 2 [(1, 1), (7, 7)] [⟨(0, 0), 1, some 0, none⟩] 1).vals).getD 1
        fvDefault = emptyClusterVals [(1, 1), (7, 7)] 1) := by
  have h := c5_group_count_and_empty_policy
    ⟨fun _ p => (0, p), fun _ => (0, 0), 1, 1, (0, 10), (0, 10)⟩
    (fun _ => 0) 2 [(1, 1), (7, 7)] [⟨(0, 0), 1, some 0, none⟩] 0 1 (by norm_num)
  refine ⟨h.1, h.2.1, ?_⟩
  have hempty : (partitionClusters 2
      ((mmStates ⟨fun _ p => (0, p), fun _ => (0, 0), 1, 1, (0, 10), (0, 10)⟩
        (fun _ => 0) 2 [(1, 1), (7, 7)] [⟨(0, 0), 1, some 0, none⟩] 0).circles)).getD 1 [] = [] := by
    rw [partitionClusters_getD 2 _ 1 (by norm_num)]
    rfl
  exact (h.2.2 hempty).1 rfl

/-- The running best loss after one more iteration (lines 390-392). -/
theorem mmStates_bestLoss_succ (env : Env) (nrm : Pt → ℚ) (num : ℕ)
    (p0List : List Pt) (c0 : List Circle) (n : ℕ) :
    (mmStates env nrm num p0List c0 (n + 1)).bestLoss =
      if iterTotal env nrm num p0List c0 n < (mmStates env nrm num p0List c0 n).bestLoss
      then iterTotal env nrm num p0List c0 n
      else (mmStates env nrm num p0List c0 n).bestLoss := by
  by_cases h : iterTotal env nrm num p0List c0 n <
      (mmStates env nrm num p0List c0 n).bestLoss
  · rw [if_pos h]
    show (mmStep env nrm num p0List n (mmStates env nrm num p0List c0 n)).bestLoss = _
    unfold mmStep
    have h' : ((solveGroups env p0List n
        (partitionClusters num ((mmStates env nrm num p0List c0 n).circles))
        ((mmStates env nrm num p0List c0 n).vals)
        ((mmStates env nrm num p0List c0 n).ridx)).1.map FunVals.loss).sum <
        (mmStates env nrm num p0List c0 n).bestLoss := h
    simp only [if_pos h']
    try rfl
  · rw [if_neg h]
    show (mmStep env nrm num p0List n (mmStates env nrm num p0List c0 n)).bestLoss = _
    unfold mmStep
    have h' : ¬ ((solveGroups env p0List n
        (partitionClusters num ((mmStates env nrm num p0List c0 n).circles))
        ((mmStates env nrm num p0List c0 n).vals)
        ((mmStates env nrm num p0List c0 n).ridx)).1.map FunVals.loss).sum <
        (mmStates env nrm num p0List c0 n).bestLoss := h
    simp only [if_neg h']
    try rfl

/-- The best snapshot after one more iteration (lines 390-392): a value copy
of the just-computed list when its total improves, else unchanged. -/
theorem mmStates_bestVals_succ (env : Env) (nrm : Pt → ℚ) (num : ℕ)
    (p0List : List Pt) (c0 : List Circle) (n : ℕ) :
    (mmStates env nrm num p0List c0 (n + 1)).bestVals =
      if iterTotal env nrm num p0List c0 n < (mmStates env nrm num p0List c0 n).bestLoss
      then some ((mmStates env nrm num p0List c0 (n + 1)).vals)
      else (mmStates env nrm num p0List c0 n).bestVals := by
  by_cases h : iterTotal env nrm num p0List c0 n <
      (mmStates env nrm num p0List c0 n).bestLoss
  · rw [if_pos h]
    show (mmStep env nrm num p0List n (mmStates env nrm num p0List c0 n)).bestVals = _
    unfold mmStep
    have h' : ((solveGroups env p0List n
        (partitionClusters num ((mmStates env nrm num p0List c0 n).circles))
        ((mmStates env nrm num p0List c0 n).vals)
        ((mmStates env nrm num p0List c0 n).ridx)).1.map FunVals.loss).sum <
        (mmStates env nrm num p0List c0 n).bestLoss := h
    simp only [if_pos h']
    try rfl
  · rw [if_neg h]
    show (mmStep env nrm num p0List n (mmStates env nrm num p0List c0 n)).bestVals = _
    unfold mmStep
    have h' : ¬ ((solveGroups env p0List n
        (partitionClusters num ((mmStates env nrm num p0List c0 n).circles))
        ((mmStates env nrm num p0List c0 n).vals)
        ((mmStates env nrm num p0List c0 n).ridx)).1.map FunVals.loss).sum <
        (mmStates env nrm num p0List c0 n).bestLoss := h
    simp only [if_neg h']
    try rfl

/-- Full characterization of the best-snapshot tracking: after `n` iterations
either nothing ever beat the `sys.maxsize` sentinel (best loss and snapshot
untouched), or the best loss and snapshot come from the first iteration
attaining the minimum total loss, and that total is below the sentinel. -/
theorem mm_best_char (env : Env) (nrm : Pt → ℚ) (num : ℕ) (p0List : List Pt)
    (c0 : List Circle) : ∀ n : ℕ,
    ((mmStates env nrm num p0List c0 n).bestLoss = sysMaxsize ∧
      (mmStates env nrm num p0List c0 n).bestVals = none ∧
      ∀ i, i < n → sysMaxsize ≤ iterTotal env nrm num p0List c0 i) ∨
    (∃ i, i < n ∧
      (mmStates env nrm num p0List c0 n).bestLoss = iterTotal env nrm num p0List c0 i ∧
      (mmStates env nrm num p0List c0 n).bestVals =
        some ((mmStates env nrm num p0List c0 (i + 1)).vals) ∧
      (∀ k, k < n → iterTotal env nrm num p0List c0 i ≤ iterTotal env nrm num p0List c0 k) ∧
      iterTotal env nrm num p0List c0 i < sysMaxsize) := by
  intro n
  induction n with
  | zero =>
    left
    exact ⟨rfl, rfl, fun i h => absurd h (Nat.not_lt_zero i)⟩
  | succ n ih =>
    rcases ih with ⟨hbl, hbv, hall⟩ | ⟨i, hi, hbl, hbv, hmin, hlt⟩
    · by_cases h : iterTotal env nrm num p0List c0 n <
          (mmStates env nrm num p0List c0 n).bestLoss
      · right
        refine ⟨n, Nat.lt_succ_self n, ?_, ?_, ?_, ?_⟩
        · rw [mmStates_bestLoss_succ, if_pos h]
        · rw [mmStates_bestVals_succ, if_pos h]
        · intro k hk
          rcases Nat.lt_succ_iff_lt_or_eq.mp hk with hk' | rfl
          · exact le_trans (le_of_lt (hbl ▸ h)) (hall k hk')
          · exact le_refl _
        · exact hbl ▸ h
      · left
        refine ⟨?_, ?_, ?_⟩
        · rw [mmStates_bestLoss_succ, if_neg h, hbl]
        · rw [mmStates_bestVals_succ, if_neg h, hbv]
        · intro k hk
          rcases Nat.lt_succ_iff_lt_or_eq.mp hk with hk' | rfl
          · exact hall k hk'
          · exact hbl ▸ not_lt.mp h
    · by_cases h : iterTotal env nrm num p0List c0 n <
          (mmStates env nrm num p0List c0 n).bestLoss
      · right
        refine ⟨n, Nat.lt_succ_self n, ?_, ?_, ?_, ?_⟩
        · rw [mmStates_bestLoss_succ, if_pos h]
        · rw [mmStates_bestVals_succ, if_pos h]
        · intro k hk
          rcases Nat.lt_succ_iff_lt_or_eq.mp hk with hk' | rfl
          · exact le_trans (le_of_lt (hbl ▸ h)) (hmin k hk')
          · exact le_refl _
        · exact lt_trans (hbl ▸ h) hlt
      · right
        refine ⟨i, Nat.lt_succ_of_lt hi, ?_, ?_, ?_, hlt⟩
        · rw [mmStates_bestLoss_succ, if_neg h, hbl]
        · rw [mmStates_bestVals_succ, if_neg h, hbv]
        · intro k hk
          rcases Nat.lt_succ_iff_lt_or_eq.mp hk with hk' | rfl
          · exact hmin k hk'
          · exact hbl ▸ not_lt.mp h

/-- C4: after the loop, `best_total_loss` is at most every iteration's total
loss; when some iteration's total beat the `sys.maxsize` sentinel, it equals
the minimum of the totals and the snapshot is a (value) copy of a minimizing
iteration's `min_fun_vals_list`; when no iteration beat the sentinel, the
fallback of lines 433-435 returns the last iteration's raw list and the
sentinel loss. -/
theorem c4_best_snapshot_tracking (env : Env) (nrm : Pt → ℚ) (num : ℕ)
    (p0List : List Pt) (c0 : List Circle) (n : ℕ) :
    (∀ i, i < n → (mmStates env nrm num p0List c0 n).bestLoss ≤
      iterTotal env nrm num p0List c0 i) ∧
    ((∃ i, i < n ∧ iterTotal env nrm num p0List c0 i < sysMaxsize) →
      ∃ i, i < n ∧
        (mmStates env nrm num p0List c0 n).bestLoss = iterTotal env nrm num p0List c0 i ∧
        (mmStates env nrm num p0List c0 n).bestVals =
          some ((mmStates env nrm num p0List c0 (i + 1)).vals) ∧
        ∀ k, k < n → iterTotal env nrm num p0List c0 i ≤ iterTotal env nrm num p0List c0 k) ∧
    ((∀ i, i < n → ¬ iterTotal env nrm num p0List c0 i < sysMaxsize) →
      ((mmStates env nrm num p0List c0 n).bestVals).getD
          ((mmStates env nrm num p0List c0 n).vals) =
        (mmStates env nrm num p0List c0 n).vals ∧
      (mmStates env nrm num p0List c0 n).bestLoss = sysMaxsize) := by
  refine ⟨?_, ?_, ?_⟩
  · intro i hi
    rcases mm_best_char env nrm num p0List c0 n with ⟨hbl, -, hall⟩ | ⟨i', -, hbl, -, hmin, -⟩
    · exact hbl ▸ hall i hi
    · exact hbl ▸ hmin i hi
  · rintro ⟨i0, hi0, hlt0⟩
    rcases mm_best_char env nrm num p0List c0 n with ⟨-, -, hall⟩ | ⟨i', hi', hbl, hbv, hmin, -⟩
    · exact absurd hlt0 (not_lt.mpr (hall i0 hi0))
    · exact ⟨i', hi', hbl, hbv, hmin⟩
  · intro hall
    rcases mm_best_char env nrm num p0List c0 n with ⟨hbl, hbv, -⟩ | ⟨i', hi', -, -, -, hlt⟩
    · rw [hbv, hbl]
      exact ⟨rfl, rfl⟩
    · exact absurd hlt (hall i' hi')

/-- Witness for `c4_best_snapshot_tracking`: a one-cluster, one-iteration run
whose iteration total beats the sentinel, so the snapshot is that iteration's
list and the best loss its total. -/
theorem c4_best_snapshot_tracking_witness :
    ∃ i, i < 1 ∧
      (mmStates ⟨fun _ p => (0, p), fun _ => (0, 0), 1, 1, (0, 10), (0, 10)⟩
        (fun _ => 0) 1 [(0, 0)] [⟨(0, 0), 1, some 0, none⟩] 1).bestLoss =
        iterTotal ⟨fun _ p => (0, p), fun _ => (0, 0), 1, 1, (0, 10), (0, 10)⟩
          (fun _ => 0) 1 [(0, 0)] [⟨(0, 0), 1, some 0, none⟩] i ∧
      (mmStates ⟨fun _ p => (0, p), fun _ => (0, 0), 1, 1, (0, 10), (0, 10)⟩
        (fun _ => 0) 1 [(0, 0)] [⟨(0, 0), 1, some 0, none⟩] 1).bestVals =
        some ((mmStates ⟨fun _ p => (0, p), fun _ => (0, 0), 1, 1, (0, 10), (0, 10)⟩
          (fun _ => 0) 1 [(0, 0)] [⟨(0, 0), 1, some 0, none⟩] (i + 1)).vals) ∧
      ∀ k, k < 1 →
        iterTotal ⟨fun _ p => (0, p), fun _ => (0, 0), 1, 1, (0, 10), (0, 10)⟩
          (fun _ => 0) 1 [(0, 0)] [⟨(0, 0), 1, some 0, none⟩] i ≤
        iterTotal ⟨fun _ p => (0, p), fun _ => (0, 0), 1, 1, (0, 10), (0, 10)⟩
          (fun _ => 0) 1 [(0, 0)] [⟨(0, 0), 1, some 0, none⟩] k :=
  (c4_best_snapshot_tracking ⟨fun _ p => (0, p), fun _ => (0, 0), 1, 1, (0, 10), (0, 10)⟩
    (fun _ => 0) 1 [(0, 0)] [⟨(0, 0), 1, some 0, none⟩] 1).2.1
    ⟨0, Nat.lt_succ_self 0, by
      show ((((mmStates ⟨fun _ p => (0, p), fun _ => (0, 0), 1, 1, (0, 10), (0, 10)⟩
        (fun _ => 0) 1 [(0, 0)] [⟨(0, 0), 1, some 0, none⟩] 1).vals).map FunVals.loss).sum) <
        sysMaxsize
      norm_num [mmStates, mmStep, solveGroups, solveGroupsAux, solveGroupEntry,
        partitionClusters, multilat, multilatStep, trialP0, p0FromHcluster,
        useLocalLims, emptyClusterVals, sysMaxsize, List.filter, List.range_succ]⟩

/-! ### Cluster-id seeding (claim C3) -/

/-- A `max`-fold is at least its initial value. -/
theorem foldl_max_init_le : ∀ (l : List ℕ) (a : ℕ), a ≤ l.foldl max a := by
  intro l
  induction l with
  | nil => intro a; exact le_refl a
  | cons x t ih => intro a; exact le_trans (le_max_left a x) (ih (max a x))

/-- Every element is at most the `max`-fold (`np.max` at line 101). -/
theorem le_foldl_max : ∀ (l : List ℕ) (a : ℕ), ∀ x ∈ l, x ≤ l.foldl max a := by
  intro l
  induction l with
  | nil => intro a x hx; exact absurd hx (List.not_mem_nil x)
  | cons y t ih =>
    intro a x hx
    rcases List.mem_cons.mp hx with rfl | hx'
    · exact le_trans (le_max_right a x) (foldl_max_init_le t (max a x))
    · exact ih (max a y) x hx'

/-- `circle_point_id_list` records one id per circle. -/
theorem hclusterAux_snd_length (ix : IxOracle) :
    ∀ (l : List Circle) (cnt : ℕ), ((hclusterAux ix l cnt).2).length = l.length := by
  intro l
  induction l with
  | nil => intro cnt; rfl
  | cons c0 rest ih =>
    intro cnt
    simp only [hclusterAux, List.length_cons]
    rw [ih]

/-- Every id in `circle_point_id_list` indexes into `hcluster_points`. -/
theorem hclusterAux_snd_bounds (ix : IxOracle) :
    ∀ (l : List Circle) (cnt : ℕ), ∀ a ∈ (hclusterAux ix l cnt).2,
      cnt ≤ a ∧ a < cnt + ((hclusterAux ix l cnt).1).length := by
  intro l
  induction l with
  | nil => intro cnt a ha; exact absurd ha (List.not_mem_nil a)
  | cons c0 rest ih =>
    intro cnt a ha
    simp only [hclusterAux] at ha ⊢
    rcases List.mem_cons.mp ha with rfl | ha'
    · exact ⟨le_refl a, by simp⟩
    · obtain ⟨h1, h2⟩ := ih (cnt + 1 + (pairPoints ix c0 rest).length) a ha'
      refine ⟨by omega, ?_⟩
      simp only [List.length_cons, List.length_append]
      omega

/-- What a successful `perform_hcluster` guarantees: the shifted labels all
lie below the cluster count, and there is one label per observation. -/
theorem perform_hcluster_ok_facts (fc : FCOracle) (t : ℚ) (points : List Pt)
    (num : ℕ) (enum : List ℕ) (means : List Pt)
    (Hlen : (fc t points).length = points.length)
    (h : perform_hcluster fc t points = .ok (num, enum, means)) :
    ((∀ x ∈ enum, x < num) ∧ enum.length = points.length) ∧
      (1 ≤ num ∧ means.length = num) := by
  match points, h with
  | [p], h =>
    have h1 : num = 1 ∧ enum = [0] ∧ means = [p] := by
      have := h
      unfold perform_hcluster at this
      simp only [Except.ok.injEq, Prod.mk.injEq] at this
      exact ⟨this.1.symm, this.2.1.symm, this.2.2.symm⟩
    obtain ⟨rfl, rfl, rfl⟩ := h1
    refine ⟨⟨?_, rfl⟩, le_refl 1, rfl⟩
    intro x hx
    rcases List.mem_singleton.mp hx with rfl
    exact Nat.zero_lt_one
  | p :: q :: rest, h =>
    have h' := h
    unfold perform_hcluster at h'
    by_cases hany : (((List.range ((((fc t (p :: q :: rest)).map (· - 1)).foldl max 0) + 1)).map
        (fun k => (((p :: q :: rest).zip ((fc t (p :: q :: rest)).map (· - 1))).filter
          (fun pe => pe.2 = k)).map Prod.fst)).any List.isEmpty) = true
    · rw [if_pos hany] at h'
      exact absurd h' (by simp)
    · rw [if_neg hany] at h'
      simp only [Except.ok.injEq, Prod.mk.injEq] at h'
      obtain ⟨hnum, henum, hmeans⟩ := h'
      subst hnum
      subst henum
      subst hmeans
      refine ⟨⟨?_, by rw [List.length_map, Hlen]⟩, Nat.succ_le_succ (Nat.zero_le _), by simp⟩
      intro x hx
      exact Nat.lt_succ_of_le (le_foldl_max _ 0 x hx)

/-- What a successful `determine_num_lat_clusters` guarantees for the seeding
loop: one id per circle, each id in range of the label list, each shifted
label below the cluster count. -/
theorem determine_ok_facts (ix : IxOracle) (fc : FCOracle) (circles : List Circle)
    (t : ℚ) (num : ℕ) (enum : List ℕ) (means : List Pt) (ids : List ℕ)
    (Hlen : ∀ t' pts, (fc t' pts).length = pts.length)
    (h : determine_num_lat_clusters ix fc circles t = .ok (num, enum, means, ids)) :
    (ids.length = circles.length ∧ (∀ a ∈ ids, a < enum.length) ∧
      (∀ x ∈ enum, x < num)) ∧ (1 ≤ num ∧ means.length = num) := by
  unfold determine_num_lat_clusters at h
  rcases heq : perform_hcluster fc t ((hclusterAux ix circles 0).1) with e | ⟨num', enum', means'⟩
  · rw [heq] at h
    exact absurd h (by simp)
  · rw [heq] at h
    simp only [Except.ok.injEq, Prod.mk.injEq] at h
    obtain ⟨h1, h2, h3, h4⟩ := h
    subst h1
    subst h2
    subst h3
    subst h4
    obtain ⟨⟨hlt, hlen⟩, hrest⟩ := perform_hcluster_ok_facts fc t _ num' enum' means'
      (Hlen t _) heq
    refine ⟨⟨hclusterAux_snd_length ix circles 0, ?_, hlt⟩, hrest⟩
    intro a ha
    obtain ⟨-, hb⟩ := hclusterAux_snd_bounds ix circles 0 a ha
    rw [hlen]
    omega

/-- The seeding loop of lines 330-335 writes a cluster id in `[0, num)` into
every circle. -/
theorem seedClusterIds_valid (circles : List Circle) (enum ids : List ℕ) (num : ℕ)
    (h1 : ids.length = circles.length)
    (h2 : ∀ a ∈ ids, a < enum.length)
    (h3 : ∀ x ∈ enum, x < num) :
    ∀ c ∈ seedClusterIds circles enum ids, ∃ k, c.clusterId = some k ∧ k < num := by
  intro c hc
  obtain ⟨ci, hci, rfl⟩ := List.mem_map.mp hc
  have hidx : ci.2 < circles.length := by
    have := List.of_mem_zip hci
    exact List.mem_range.mp this.2
  have hlt : ci.2 < ids.length := h1 ▸ hidx
  rw [if_pos hlt]
  refine ⟨enum.getD (ids.getD ci.2 0) 0, rfl, ?_⟩
  have hida : ids.getD ci.2 0 ∈ ids := by
    rw [List.getD_eq_getElem ids 0 hlt]
    exact List.getElem_mem hlt
  have hae : ids.getD ci.2 0 < enum.length := h2 _ hida
  have henum : enum.getD (ids.getD ci.2 0) 0 ∈ enum := by
    rw [List.getD_eq_getElem enum 0 hae]
    exact List.getElem_mem hae
  exact h3 _ henum

/-- C3 (amended): when `num_lat_clusters` is omitted, the auto-estimation path
seeds every circle's `cluster_id` with an integer in `[0, num_lat_clusters)`
before the first solve/reassign iteration; when `num_lat_clusters` is supplied
to `locate_intersections`, no seeding happens and every internal circle keeps
the `cluster_id = None` written at line 480 (so the claimed invariant fails
there, and iteration 0 raises subscripting `p0_list = None`). -/
theorem c3_seeded_cluster_ids_in_range (ix : IxOracle) (fc : FCOracle)
    (circles : List Circle) (t : ℚ) (num : ℕ) (enum ids : List ℕ) (means : List Pt)
    (Hlen : ∀ t' pts, (fc t' pts).length = pts.length)
    (hok : determine_num_lat_clusters ix fc circles t = .ok (num, enum, means, ids)) :
    (∀ c ∈ seedClusterIds circles enum ids, ∃ k, c.clusterId = some k ∧ k < num) ∧
    (∀ (inp : List InputCircle), ∀ c ∈ initCircles inp, c.clusterId = none) := by
  obtain ⟨⟨h1, h2, h3⟩, -⟩ := determine_ok_facts ix fc circles t num enum means ids Hlen hok
  refine ⟨seedClusterIds_valid circles enum ids num h1 h2 h3, ?_⟩
  intro inp c hc
  obtain ⟨c', -, rfl⟩ := List.mem_map.mp hc
  rfl

/-- Witness for `c3_seeded_cluster_ids_in_range` on a one-circle input with a
concrete clustering oracle. -/
theorem c3_seeded_cluster_ids_in_range_witness :
    (∀ c ∈ seedClusterIds [⟨(0, 0), 1, none, none⟩] [0] [0],
      ∃ k, c.clusterId = some k ∧ k < 1) ∧
    (∀ (inp : List InputCircle), ∀ c ∈ initCircles inp, c.clusterId = none) :=
  c3_seeded_cluster_ids_in_range
    (fun _ _ => ⟨Sum.inr false, Sum.inr false, IxCase.coincident⟩)
    (fun _ pts => pts.map (fun _ => 1))
    [⟨(0, 0), 1, none, none⟩] (1/2) 1 [0] [0] [(0, 0)]
    (fun _ pts => by simp)
    rfl

/-- C3 (counterexample): with `num_lat_clusters = 2` supplied explicitly at
`locate_intersections`, the internal circles built at lines 472-483 keep
`cluster_id = None`, so after initialization the single circle's cluster id is
not an integer in `[0, 2)`. -/
theorem c3_explicit_num_cluster_id_is_none :
    ¬ ∀ c ∈ initCircles [⟨(0, 0), 1, none⟩], ∃ k, c.clusterId = some k ∧ k < 2 := by
  intro h
  obtain ⟨k, hk, -⟩ := h ⟨(0, 0), 1, none, none⟩ (by simp [initCircles])
  exact Option.noConfusion hk

/-! ### Frame property of the caller's circle list (claim C10) -/

/-- A batch write leaves unlisted addresses untouched. -/
theorem writeMany_frame :
    ∀ (ws : List (ℕ × Circle)) (h : Heap) (a : ℕ),
      (∀ w ∈ ws, w.1 ≠ a) → writeMany h ws a = h a := by
  intro ws
  induction ws with
  | nil => intro h a _; rfl
  | cons w t ih =>
    intro h a hne
    show writeMany (writeHeap h w.1 w.2) t a = h a
    rw [ih (writeHeap h w.1 w.2) a (fun v hv => hne v (List.mem_cons_of_mem w hv))]
    unfold writeHeap
    rw [if_neg (fun hc => hne w (List.mem_cons_self w t) hc.symm)]

/-- The iterated reassignment writes leave addresses outside the internal
block untouched. -/
theorem heapIters_frame (env : Env) (nrm : Pt → ℚ) (num : ℕ) (p0List : List Pt)
    (c0 : List Circle) (addrs2 : List ℕ) :
    ∀ (k : ℕ) (h : Heap) (a : ℕ), (∀ b ∈ addrs2, b ≠ a) →
      heapIters env nrm num p0List c0 addrs2 h k a = h a := by
  intro k
  induction k with
  | zero => intro h a _; rfl
  | succ k ih =>
    intro h a hne
    show writeMany (heapIters env nrm num p0List c0 addrs2 h k) _ a = h a
    rw [writeMany_frame _ _ a (fun w hw => hne w.1 (List.of_mem_zip hw).1)]
    exact ih h a hne

/-- C10: the pipeline never writes through the caller's addresses — all its
writes target the two fresh blocks (the internal list of line 480 and the
deep copy of line 227) — so after the run the caller's circle records,
centers, radii, cluster ids and labels included, read back unchanged. -/
theorem c10_caller_circles_unchanged (env : Env) (nrm : Pt → ℚ) (ix : IxOracle)
    (fc : FCOracle) (threshold : ℚ) (h : Heap) (callerAddrs : List ℕ) (alloc : ℕ)
    (Hfresh : ∀ a ∈ callerAddrs, a < alloc) :
    callerAddrs.map (locateHeapRun env nrm ix fc threshold h callerAddrs alloc) =
      callerAddrs.map h := by
  apply List.map_congr_left
  intro a ha
  have hlt : a < alloc := Hfresh a ha
  have hA1 : ∀ b ∈ heapA1 callerAddrs alloc, b ≠ a := by
    intro b hb
    have := (List.mem_range'_1.mp hb).1
    omega
  have hA2 : ∀ b ∈ heapA2 callerAddrs alloc, b ≠ a := by
    intro b hb
    have := (List.mem_range'_1.mp hb).1
    omega
  unfold locateHeapRun
  rcases hdet : determine_num_lat_clusters ix fc (heapNp h callerAddrs) threshold
    with e | ⟨num, enum, means, ids⟩
  · show writeMany (writeMany h ((heapA1 callerAddrs alloc).zip (heapNp h callerAddrs)))
      ((heapA2 callerAddrs alloc).zip (heapNp h callerAddrs)) a = h a
    rw [writeMany_frame _ _ a (fun w hw => hA2 w.1 (List.of_mem_zip hw).1),
      writeMany_frame _ _ a (fun w hw => hA1 w.1 (List.of_mem_zip hw).1)]
  · show heapIters env nrm num means (seedClusterIds (heapNp h callerAddrs) enum ids)
      (heapA2 callerAddrs alloc)
      (writeMany
        (writeMany (writeMany h ((heapA1 callerAddrs alloc).zip (heapNp h callerAddrs)))
          ((heapA2 callerAddrs alloc).zip (heapNp h callerAddrs)))
        ((heapA2 callerAddrs alloc).zip (seedClusterIds (heapNp h callerAddrs) enum ids)))
      env.reclusterIters a = h a
    rw [heapIters_frame _ _ _ _ _ _ _ _ a hA2,
      writeMany_frame _ _ a (fun w hw => hA2 w.1 (List.of_mem_zip hw).1),
      writeMany_frame _ _ a (fun w hw => hA2 w.1 (List.of_mem_zip hw).1),
      writeMany_frame _ _ a (fun w hw => hA1 w.1 (List.of_mem_zip hw).1)]

/-- Witness for `c10_caller_circles_unchanged` on a concrete two-circle heap. -/
theorem c10_caller_circles_unchanged_witness :
    [0, 1].map (locateHeapRun ⟨fun _ p => (0, p), fun _ => (0, 0), 1, 1, (0, 10), (0, 10)⟩
      (fun _ => 0) (fun _ _ => ⟨Sum.inr false, Sum.inr false, IxCase.coincident⟩)
      (fun _ pts => pts.map (fun _ => 1)) (1/2)
      (fun n => ⟨((n : ℚ), 0), 1, none, none⟩) [0, 1] 2) =
      [0, 1].map (fun n => (⟨((n : ℚ), 0), 1, none, none⟩ : Circle)) :=
  c10_caller_circles_unchanged ⟨fun _ p => (0, p), fun _ => (0, 0), 1, 1, (0, 10), (0, 10)⟩
    (fun _ => 0) (fun _ _ => ⟨Sum.inr false, Sum.inr false, IxCase.coincident⟩)
    (fun _ pts => pts.map (fun _ => 1)) (1/2)
    (fun n => ⟨((n : ℚ), 0), 1, none, none⟩) [0, 1] 2
    (by intro a ha; rcases List.mem_cons.mp ha with rfl | ha' <;> simp_all)

/-! ### Error behavior of `locate_intersections` (claim C9) -/

/-- A member of the right list of a zip appears paired with some left
element, whenever the left list is long enough. -/
theorem zip_mem_of_right {α β : Type} :
    ∀ (l₁ : List α) (l₂ : List β) (b : β), l₂.length ≤ l₁.length → b ∈ l₂ →
      ∃ a, (a, b) ∈ l₁.zip l₂ := by
  intro l₁ l₂
  induction l₂ generalizing l₁ with
  | nil => intro b _ hb; exact absurd hb (List.not_mem_nil b)
  | cons y t ih =>
    intro b hlen hb
    match l₁ with
    | [] => simp at hlen
    | a :: t₁ =>
      rcases List.mem_cons.mp hb with rfl | hb'
      · exact ⟨a, by simp⟩
      · obtain ⟨a', ha'⟩ := ih t₁ b (by simpa using hlen) hb'
        exact ⟨a', List.mem_cons_of_mem _ ha'⟩

/-- With one label per observation and labels covering `0 … max`, scipy's
clustering step succeeds on at least two observations: every cluster below
the count is inhabited, so `perform_hcluster` returns `.ok` with one centroid
per cluster. -/
theorem perform_hcluster_ok_exists (fc : FCOracle) (t : ℚ) (points : List Pt)
    (hne : points ≠ [])
    (Hlen : (fc t points).length = points.length)
    (Hcover : ∀ k, k ≤ ((fc t points).map (· - 1)).foldl max 0 →
      k ∈ (fc t points).map (· - 1)) :
    ∃ num enum means, perform_hcluster fc t points = .ok (num, enum, means) ∧
      means.length = num := by
  match points, hne with
  | [p], _ => exact ⟨1, [0], [p], rfl, rfl⟩
  | p :: q :: rest, _ =>
    have Hlen' : ((fc t (p :: q :: rest)).map (· - 1)).length =
        (p :: q :: rest).length := by
      rw [List.length_map]; exact Hlen
    have hclne : ∀ cl ∈ (List.range ((((fc t (p :: q :: rest)).map (· - 1)).foldl max 0) + 1)).map
        (fun k => (((p :: q :: rest).zip ((fc t (p :: q :: rest)).map (· - 1))).filter
          (fun pe => pe.2 = k)).map Prod.fst), cl.isEmpty = false := by
      intro cl hcl
      obtain ⟨k, hk, rfl⟩ := List.mem_map.mp hcl
      have hk' : k ≤ ((fc t (p :: q :: rest)).map (· - 1)).foldl max 0 :=
        Nat.lt_succ_iff.mp (List.mem_range.mp hk)
      have hkmem := Hcover k hk'
      obtain ⟨a, ha⟩ := zip_mem_of_right (p :: q :: rest) _ k (le_of_eq Hlen') hkmem
      have hmem : (a, k) ∈ ((p :: q :: rest).zip ((fc t (p :: q :: rest)).map (· - 1))).filter
          (fun pe => pe.2 = k) := List.mem_filter.mpr ⟨ha, by simp⟩
      have hmm : a ∈ (((p :: q :: rest).zip ((fc t (p :: q :: rest)).map (· - 1))).filter
          (fun pe => pe.2 = k)).map Prod.fst := List.mem_map.mpr ⟨(a, k), hmem, rfl⟩
      have hclnil := List.ne_nil_of_mem hmm
      exact Bool.eq_false_iff.mpr (fun he => hclnil (List.isEmpty_iff.mp he))
    refine ⟨(((fc t (p :: q :: rest)).map (· - 1)).foldl max 0) + 1,
      (fc t (p :: q :: rest)).map (· - 1),
      ((List.range ((((fc t (p :: q :: rest)).map (· - 1)).foldl max 0) + 1)).map
        (fun k => (((p :: q :: rest).zip ((fc t (p :: q :: rest)).map (· - 1))).filter
          (fun pe => pe.2 = k)).map Prod.fst)).map ptMean, ?_, by simp⟩
    show (if ((List.range ((((fc t (p :: q :: rest)).map (· - 1)).foldl max 0) + 1)).map
        (fun k => (((p :: q :: rest).zip ((fc t (p :: q :: rest)).map (· - 1))).filter
          (fun pe => pe.2 = k)).map Prod.fst)).any List.isEmpty = true then
        Except.error PyErr.indexError
      else _) = _
    rw [if_neg (by
      intro hany
      obtain ⟨cl, hcl, hemp⟩ := List.any_eq_true.mp hany
      rw [hclne cl hcl] at hemp
      exact Bool.noConfusion hemp)]

/-- On a non-empty circle list, with the scipy oracle honoring its contract,
`determine_num_lat_clusters` succeeds and returns one centroid per cluster. -/
theorem determine_ok_exists (ix : IxOracle) (fc : FCOracle) (circles : List Circle)
    (t : ℚ) (hne : circles ≠ [])
    (Hlen : ∀ t' pts, (fc t' pts).length = pts.length)
    (Hcover : ∀ t' pts, pts ≠ [] →
      ∀ k, k ≤ ((fc t' pts).map (· - 1)).foldl max 0 → k ∈ (fc t' pts).map (· - 1)) :
    ∃ num enum means ids,
      determine_num_lat_clusters ix fc circles t = .ok (num, enum, means, ids) ∧
      means.length = num := by
  have hptsne : (hclusterAux ix circles 0).1 ≠ [] := by
    match circles, hne with
    | c0 :: rest, _ =>
      show c0.center :: _ ≠ []
      exact List.cons_ne_nil _ _
  obtain ⟨num, enum, means, hok, hmlen⟩ := perform_hcluster_ok_exists fc t
    ((hclusterAux ix circles 0).1) hptsne (Hlen t _) (Hcover t _ hptsne)
  refine ⟨num, enum, means, (hclusterAux ix circles 0).2, ?_, hmlen⟩
  unfold determine_num_lat_clusters
  rw [hok]

/-- A trial either stores a point or leaves the record unchanged. -/
theorem multilatStep_p (env : Env) (circles : List Circle) (xl yl : ℚ × ℚ)
    (p0h : Option Pt) (ridx : ℕ) (mfv : FunVals) (ot : ℕ) :
    ((multilatStep env circles xl yl p0h ridx mfv ot)).p.isSome = true ∨
      multilatStep env circles xl yl p0h ridx mfv ot = mfv := by
  dsimp only [multilatStep]
  split_ifs with h
  · left; rfl
  · right; rfl

/-- Folding trials preserves an already-stored point. -/
theorem foldl_p_some (f : FunVals → ℕ → FunVals)
    (hf : ∀ mfv ot, (f mfv ot).p.isSome = true ∨ f mfv ot = mfv) :
    ∀ (l : List ℕ) (acc : FunVals), acc.p.isSome = true →
      ((l.foldl f acc)).p.isSome = true := by
  intro l
  induction l with
  | nil => intro acc h; exact h
  | cons x t ih =>
    intro acc h
    rcases hf acc x with h' | h'
    · exact ih (f acc x) h'
    · rw [List.foldl_cons, h']
      exact ih acc h

/-- The restart fold of `multilat` stores a point as soon as the first trial
runs, because the optimizer's reported loss is below the `sys.maxsize`
initialization. -/
theorem multilat_fold_p (env : Env) (circles : List Circle) (xl yl : ℚ × ℚ)
    (p0h : Option Pt) (ridx : ℕ) (n : ℕ) (hn : 1 ≤ n)
    (Hopt : ∀ cs p0, (env.minimize cs p0).1 < sysMaxsize) :
    (((List.range n).foldl (multilatStep env circles xl yl p0h ridx)
      ⟨sysMaxsize, none, circles, none⟩)).p.isSome = true := by
  match n, hn with
  | m + 1, _ =>
    rw [List.range_eq_range', List.range'_succ, List.foldl_cons]
    apply foldl_p_some _ (multilatStep_p env circles xl yl p0h ridx)
    dsimp only [multilatStep]
    rw [if_pos (Hopt circles (trialP0 env.rand xl yl p0h ridx 0))]
    rfl

/-- With at least one trial and an optimizer whose reported losses stay below
the sentinel, `multilat` always returns a record holding a point. -/
theorem multilat_p_isSome (env : Env) (circles : List Circle) (useLocal : Bool)
    (p0h : Option Pt) (ridx : ℕ) (hTrials : 1 ≤ env.optTrials)
    (Hopt : ∀ cs p0, (env.minimize cs p0).1 < sysMaxsize) :
    (((multilat env circles useLocal p0h ridx)).1).p.isSome = true := by
  unfold multilat
  exact multilat_fold_p env circles _ _ p0h ridx env.optTrials hTrials Hopt

/-- Every record of every iteration's `min_fun_vals_list` holds a point. -/
theorem mmStates_vals_pIsSome (env : Env) (nrm : Pt → ℚ) (num : ℕ)
    (p0List : List Pt) (c0 : List Circle) (hTrials : 1 ≤ env.optTrials)
    (Hopt : ∀ cs p0, (env.minimize cs p0).1 < sysMaxsize) :
    ∀ k j, j < num →
      ((((mmStates env nrm num p0List c0 (k + 1)).vals).getD j fvDefault)).p.isSome = true := by
  intro k
  induction k with
  | zero =>
    intro j hj
    obtain ⟨r, hr⟩ := solveGroupsAux_getD env p0List 0 [] (partitionClusters num c0)
      0 0 j (by rw [partitionClusters_length]; exact hj)
    show ((((solveGroupsAux env p0List 0 [] (partitionClusters num c0) 0 0).1).getD
      j fvDefault)).p.isSome = true
    rw [hr]
    unfold solveGroupEntry
    split_ifs with h1 h2
    · exact absurd h1.2 (by omega)
    · rfl
    · show (((multilat env _ _ _ r)).1).p.isSome = true
      exact multilat_p_isSome env _ _ _ r hTrials Hopt
  | succ k ih =>
    intro j hj
    have hlen : (partitionClusters num
        ((mmStates env nrm num p0List c0 (k + 1)).circles)).length = num :=
      partitionClusters_length _ _
    obtain ⟨r, hr⟩ := solveGroupsAux_getD env p0List (k + 1)
      ((mmStates env nrm num p0List c0 (k + 1)).vals)
      (partitionClusters num ((mmStates env nrm num p0List c0 (k + 1)).circles))
      0 ((mmStates env nrm num p0List c0 (k + 1)).ridx) j (by rw [hlen]; exact hj)
    show ((((solveGroupsAux env p0List (k + 1) _ _ 0 _).1).getD j fvDefault)).p.isSome = true
    rw [hr]
    unfold solveGroupEntry
    split_ifs with h1 h2
    · simpa using ih j hj
    · rfl
    · show (((multilat env _ _ _ r)).1).p.isSome = true
      exact multilat_p_isSome env _ _ _ r hTrials Hopt

/-- Reassignment and the loop never change a circle's center or radius: every
circle of every loop state matches an initial circle's geometry. -/
theorem mmStates_circles_shape (env : Env) (nrm : Pt → ℚ) (num : ℕ)
    (p0List : List Pt) (c0 : List Circle) :
    ∀ k, ∀ c' ∈ (mmStates env nrm num p0List c0 k).circles,
      ∃ c ∈ c0, c'.center = c.center ∧ c'.radius = c.radius := by
  intro k
  induction k with
  | zero => intro c' hc'; exact ⟨c', hc', rfl, rfl⟩
  | succ k ih =>
    intro c' hc'
    have hc'' : c' ∈ reassign_circle_clusters nrm
        ((mmStates env nrm num p0List c0 k).circles)
        ((mmStates env nrm num p0List c0 (k + 1)).vals) := hc'
    obtain ⟨c, hc, rfl⟩ := List.mem_map.mp hc''
    exact ih c hc

/-- Reassignment writes a valid cluster id into every circle, given that the
group records carry their positions and the scanned losses can beat the
sentinel. -/
theorem reassign_valid (nrm : Pt → ℚ) (circles : List Circle) (vals : List FunVals)
    (num : ℕ) (hlen : vals.length = num) (hnum : 1 ≤ num)
    (hidx : ∀ j (hj : j < vals.length), (vals.get ⟨j, hj⟩).index = some j)
    (hloss : ∀ c ∈ circles, lossFor nrm c (vals.get ⟨0, by omega⟩) < sysMaxsize) :
    ∀ c' ∈ reassign_circle_clusters nrm circles vals,
      ∃ k, c'.clusterId = some k ∧ k < num := by
  intro c' hc'
  obtain ⟨c, hc, rfl⟩ := List.mem_map.mp hc'
  obtain ⟨k, hk, heq, -, -, -⟩ := foldl_argmin_found (lossFor nrm c) vals
    (sysMaxsize, none)
    ⟨vals.get ⟨0, by omega⟩, vals.get_mem 0 (by omega), hloss c hc⟩
  refine ⟨k, ?_, hlen ▸ hk⟩
  show argmin_p nrm c vals = some k
  unfold argmin_p
  rw [heq]
  exact hidx k hk

/-- The loop invariant behind crash-freedom: for bounded geometry (norm
values and radii at most `2^61`, well under the `2^63 - 1` sentinel), an
optimizer reporting sub-sentinel losses, at least one trial, at least one
cluster, and validly seeded circles, every loop state is `stateOk`. -/
theorem mmStates_stateOk (env : Env) (nrm : Pt → ℚ) (num : ℕ) (p0List : List Pt)
    (c0 : List Circle) (hTrials : 1 ≤ env.optTrials)
    (Hopt : ∀ cs p0, (env.minimize cs p0).1 < sysMaxsize)
    (Hnrm : ∀ v : Pt, 0 ≤ nrm v ∧ nrm v ≤ 2 ^ 61)
    (Hrad : ∀ c ∈ c0, 0 ≤ c.radius ∧ c.radius ≤ 2 ^ 61)
    (Hc0 : ∀ c ∈ c0, ∃ k, c.clusterId = some k ∧ k < num)
    (hnum : 1 ≤ num) :
    ∀ k, stateOk num (mmStates env nrm num p0List c0 k) := by
  intro k
  induction k with
  | zero =>
    exact ⟨Hc0, fun fv hfv => absurd hfv (List.not_mem_nil fv)⟩
  | succ k ih =>
    have hlen : ((mmStates env nrm num p0List c0 (k + 1)).vals).length = num :=
      mmStates_vals_length env nrm num p0List c0 k
    constructor
    · have hidx : ∀ j (hj : j < ((mmStates env nrm num p0List c0 (k + 1)).vals).length),
          (((mmStates env nrm num p0List c0 (k + 1)).vals).get ⟨j, hj⟩).index = some j := by
        intro j hj
        have hj' : j < num := hlen ▸ hj
        have := mmStates_vals_index env nrm num p0List c0 k j hj'
        rwa [List.getD_eq_getElem _ _ hj] at this
      have hloss : ∀ c ∈ (mmStates env nrm num p0List c0 k).circles,
          lossFor nrm c (((mmStates env nrm num p0List c0 (k + 1)).vals).get
            ⟨0, by omega⟩) < sysMaxsize := by
        intro c hc
        obtain ⟨cini, hcini, -, hrad⟩ := mmStates_circles_shape env nrm num p0List c0 k c hc
        obtain ⟨hr0, hr1⟩ := Hrad cini hcini
        unfold lossFor single_loss
        obtain ⟨hn0, hn1⟩ := Hnrm ((((mmStates env nrm num p0List c0 (k + 1)).vals).get
          ⟨0, by omega⟩).p.getD (0, 0) - c.center)
        rw [hrad]
        have habs : |nrm ((((mmStates env nrm num p0List c0 (k + 1)).vals).get
            ⟨0, by omega⟩).p.getD (0, 0) - c.center) - cini.radius| ≤ 2 ^ 61 :=
          abs_le.mpr ⟨by linarith, by linarith⟩
        calc |nrm ((((mmStates env nrm num p0List c0 (k + 1)).vals).get
              ⟨0, by omega⟩).p.getD (0, 0) - c.center) - cini.radius|
            ≤ 2 ^ 61 := habs
          _ < sysMaxsize := by norm_num [sysMaxsize]
      show ∀ c' ∈ reassign_circle_clusters nrm ((mmStates env nrm num p0List c0 k).circles)
          ((mmStates env nrm num p0List c0 (k + 1)).vals),
        ∃ j, c'.clusterId = some j ∧ j < num
      exact reassign_valid nrm _ _ num hlen hnum hidx hloss
    · intro fv hfv
      obtain ⟨j, hj, rfl⟩ := List.mem_iff_getElem.mp hfv
      have hj' : j < num := hlen ▸ hj
      have := mmStates_vals_pIsSome env nrm num p0List c0 hTrials Hopt k j hj'
      rwa [List.getD_eq_getElem _ _ hj] at this

/-- The seeding loop changes only cluster ids: radii trace back to the
original circles. -/
theorem seedClusterIds_radius (l : List Circle) (enum ids : List ℕ) :
    ∀ c' ∈ seedClusterIds l enum ids, ∃ c ∈ l, c'.radius = c.radius := by
  intro c' hc'
  obtain ⟨ci, hci, rfl⟩ := List.mem_map.mp hc'
  have hmem : ci.1 ∈ l := (List.of_mem_zip hci).1
  by_cases hlt : ci.2 < ids.length
  · rw [if_pos hlt]
    exact ⟨ci.1, hmem, rfl⟩
  · rw [if_neg hlt]
    exact ⟨ci.1, hmem, rfl⟩

/-- The internal circles carry exactly the caller's radii. -/
theorem initCircles_radius (l : List InputCircle) :
    ∀ c' ∈ initCircles l, ∃ c ∈ l, c'.radius = c.radius := by
  intro c' hc'
  obtain ⟨c, hc, rfl⟩ := List.mem_map.mp hc'
  exact ⟨c, hc, rfl⟩

/-- The sums defining `r_avg` agree with the caller's radii. -/
theorem ravg_eq (l : List InputCircle) :
    ravg l = (l.map InputCircle.radius).sum / l.length := by
  unfold ravg initCircles
  rw [List.map_map, List.length_map]
  rfl

/-- C9 (counterexample): the all-zero-radius circle list is non-empty with
both limits omitted, yet `locate_intersections` raises: the auto clustering
threshold divides by the zero average radius (`ZeroDivisionError` at line
492), refuting "no caller-visible failure is raised" as universally stated. -/
theorem c9_zero_radius_raises :
    locate_intersections (fun _ p => (0, p)) (fun _ => (0, 0)) (fun _ => 0)
      (fun _ _ => ⟨Sum.inr false, Sum.inr false, IxCase.coincident⟩)
      (fun _ pts => pts.map (fun _ => 1))
      [⟨(0, 0), 0, none⟩] none none none none = .error PyErr.zeroDivisionError ∧
    ([⟨(0, 0), 0, none⟩] : List InputCircle) ≠ [] := by
  refine ⟨?_, by simp⟩
  have hthr : locThreshold [⟨(0, 0), 0, none⟩] none = .error PyErr.zeroDivisionError := by
    unfold locThreshold
    rw [if_pos (by norm_num [ravg_eq])]
  unfold locate_intersections
  rw [if_neg (by simp), if_neg (by simp), hthr]

/-- C9 (amended): `locate_intersections` fails fast at its two `assert`s when
the circle list is empty or exactly one of `xlim`/`ylim` is supplied; for a
non-empty list with the limits both supplied or both omitted, the defaulted
optional parameters, a positive total radius (zero average radius raises
`ZeroDivisionError`), bounded geometry (norm values and radii at most `2^61`,
below the `2^63 - 1` loss sentinel — unboundedly large inputs make the
reassignment write `None` ids and crash the next partition), and the
scipy/optimizer oracles honoring their contracts, the call returns a result
and every loop state is exception-free (`stateOk`). -/
theorem c9_fail_fast_and_success (M : List Circle → Pt → ℚ × Pt) (R : ℕ → ℚ × ℚ)
    (nrm : Pt → ℚ) (ix : IxOracle) (fc : FCOracle)
    (circles : List InputCircle) (xlO ylO : Option (ℚ × ℚ))
    (HfcLen : ∀ t pts, (fc t pts).length = pts.length)
    (HfcCover : ∀ t pts, pts ≠ [] →
      ∀ k, k ≤ ((fc t pts).map (· - 1)).foldl max 0 → k ∈ (fc t pts).map (· - 1))
    (Hopt : ∀ cs p0, (M cs p0).1 < sysMaxsize)
    (Hnrm : ∀ v : Pt, 0 ≤ nrm v ∧ nrm v ≤ 2 ^ 61)
    (Hrad : ∀ c ∈ circles, 0 ≤ c.radius ∧ c.radius ≤ 2 ^ 61) :
    (circles = [] →
      locate_intersections M R nrm ix fc circles xlO ylO none none =
        .error PyErr.assertionError) ∧
    (xlO.isSome ≠ ylO.isSome →
      locate_intersections M R nrm ix fc circles xlO ylO none none =
        .error PyErr.assertionError) ∧
    (circles ≠ [] → xlO.isSome = ylO.isSome →
      0 < (circles.map InputCircle.radius).sum →
      (∃ out, locate_intersections M R nrm ix fc circles xlO ylO none none = .ok out) ∧
      (∀ (xl yl : ℚ × ℚ) (t : ℚ) (num : ℕ) (enum ids : List ℕ) (means : List Pt),
        determine_num_lat_clusters ix fc (initCircles circles) t =
          .ok (num, enum, means, ids) →
        means.length = num ∧
        ∀ k, stateOk num (mmStates ⟨M, R, 15, 8, xl, yl⟩ nrm num means
          (seedClusterIds (initCircles circles) enum ids) k))) := by
  refine ⟨?_, ?_, ?_⟩
  · rintro rfl
    rfl
  · intro hxor
    unfold locate_intersections
    by_cases hc : circles = []
    · rw [if_pos hc]
    · rw [if_neg hc, if_pos hxor]
  · intro hne hal hsum
    have hne2 : initCircles circles ≠ [] := by
      intro hcon
      exact hne (List.map_eq_nil_iff.mp hcon)
    have hlenpos : 0 < (circles.length : ℚ) := by
      have : 0 < circles.length := List.length_pos.mpr hne
      exact_mod_cast this
    have hravg : 0 < ravg circles := by
      rw [ravg_eq]
      exact div_pos hsum hlenpos
    have hravgne : ¬ ravg circles = 0 := ne_of_gt hravg
    constructor
    · obtain ⟨num, enum, means, ids, hdet, -⟩ := determine_ok_exists ix fc
        (initCircles circles)
        (if (34 : ℚ) / (ravg circles * 3) < 79/20
         then 4488449/1000000 * (ravg circles / 3)
         else 4488449/1000000 * (ravg circles / (5/2)))
        hne2 HfcLen HfcCover
      obtain ⟨res, hres⟩ : ∃ res, multiple_multilateration
          ⟨M, R, 15, 8, (locLims circles xlO ylO).1, (locLims circles xlO ylO).2⟩
          nrm ix fc (initCircles circles)
          (if (34 : ℚ) / (ravg circles * 3) < 79/20
           then 4488449/1000000 * (ravg circles / 3)
           else 4488449/1000000 * (ravg circles / (5/2)))
          (ravg circles / 10) = .ok res := by
        unfold multiple_multilateration
        rw [hdet]
        exact ⟨_, rfl⟩
      have hthr : locThreshold circles none =
          .ok (if (34 : ℚ) / (ravg circles * 3) < 79/20
               then 4488449/1000000 * (ravg circles / 3)
               else 4488449/1000000 * (ravg circles / (5/2))) := by
        unfold locThreshold
        rw [if_neg hravgne]
      refine ⟨(res.1, res.2, (locLims circles xlO ylO).1,
        (locLims circles xlO ylO).2, ravg circles / 10), ?_⟩
      unfold locate_intersections
      rw [if_neg hne, if_neg (not_ne_iff.mpr hal), hthr]
      show (match multiple_multilateration
          ⟨M, R, 15, 8, (locLims circles xlO ylO).1, (locLims circles xlO ylO).2⟩
          nrm ix fc (initCircles circles)
          (if (34 : ℚ) / (ravg circles * 3) < 79/20
           then 4488449/1000000 * (ravg circles / 3)
           else 4488449/1000000 * (ravg circles / (5/2)))
          (ravg circles / 10) with
        | .error e => Except.error e
        | .ok r => Except.ok (r.1, r.2, (locLims circles xlO ylO).1,
            (locLims circles xlO ylO).2, ravg circles / 10)) =
        Except.ok (res.1, res.2, (locLims circles xlO ylO).1,
          (locLims circles xlO ylO).2, ravg circles / 10)
      rw [hres]
    · intro xl yl t num enum ids means hdet
      obtain ⟨⟨hids, hbnd, henum⟩, hnum, hmlen⟩ := determine_ok_facts ix fc
        (initCircles circles) t num enum means ids HfcLen hdet
      refine ⟨hmlen, ?_⟩
      apply mmStates_stateOk
      · norm_num
      · exact Hopt
      · exact Hnrm
      · intro c hc
        obtain ⟨c1, hc1, hr1⟩ := seedClusterIds_radius (initCircles circles) enum ids c hc
        obtain ⟨c2, hc2, hr2⟩ := initCircles_radius circles c1 hc1
        rw [hr1, hr2]
        exact Hrad c2 hc2
      · exact seedClusterIds_valid (initCircles circles) enum ids num
          (by rw [hids]) hbnd henum
      · exact hnum

/-- The constant-label clustering oracle satisfies the coverage contract. -/
theorem const_one_labels_cover (pts : List Pt) (hpts : pts ≠ []) :
    ∀ k, k ≤ ((pts.map (fun _ => (1 : ℕ))).map (· - 1)).foldl max 0 →
      k ∈ (pts.map (fun _ => (1 : ℕ))).map (· - 1) := by
  have hz : (pts.map (fun _ => (1 : ℕ))).map (· - 1) = pts.map (fun _ => 0) := by
    rw [List.map_map]; rfl
  have hfold : ∀ (l : List Pt), ((l.map (fun _ => (0 : ℕ))).foldl max 0) = 0 := by
    intro l
    induction l with
    | nil => rfl
    | cons p t ih => simpa using ih
  rw [hz, hfold]
  intro k hk
  interval_cases k
  match pts, hpts with
  | p :: t, _ => simp

/-- Witness for `c9_fail_fast_and_success` on a concrete one-circle input
with concrete oracles: the call succeeds. -/
theorem c9_fail_fast_and_success_witness :
    ∃ out, locate_intersections (fun _ p => (0, p)) (fun _ => (0, 0))
      (fun _ => 1)
      (fun _ _ => ⟨Sum.inr false, Sum.inr false, IxCase.coincident⟩)
      (fun _ pts => pts.map (fun _ => 1))
      [⟨(3, 3), 2, none⟩] none none none none = .ok out :=
  ((c9_fail_fast_and_success (fun _ p => (0, p)) (fun _ => (0, 0))
    (fun _ => 1)
    (fun _ _ => ⟨Sum.inr false, Sum.inr false, IxCase.coincident⟩)
    (fun _ pts => pts.map (fun _ => 1))
    [⟨(3, 3), 2, none⟩] none none
    (fun t pts => by simp)
    (fun t pts hpts => const_one_labels_cover pts hpts)
    (fun cs p0 => by norm_num [sysMaxsize])
    (fun v => ⟨by norm_num, by norm_num⟩)
    (fun c hc => by
      rcases List.mem_singleton.mp hc with rfl
      norm_num)).2.2
    (by simp) rfl (by norm_num)).1

end Minlat

namespace MinlatR

/-- The distance `norm2 ((t, 0) - (0, 0))` along the first axis equals `t` for
positive `t`. -/
theorem norm2_axis {t : ℝ} (ht : 0 < t) : norm2 ((t, 0) - ((0 : ℝ), (0 : ℝ))) = t := by
  have : ((t, (0 : ℝ)) - ((0 : ℝ), (0 : ℝ))) = (t, (0 : ℝ)) := by
    simp [Prod.ext_iff]
  rw [this]
  unfold norm2
  have h9 : (t : ℝ) ^ 2 + (0 : ℝ) ^ 2 = t ^ 2 := by ring
  rw [h9, Real.sqrt_sq ht.le]

/-- C1 (code bug): for the single circle `{center (0,0), r = 1}` and the point
`p = (3, 0)`, the `jacobian` closure of `opt_func_dec` returns `(4, 0)` — the
gradient of the squared residual `(‖p-x‖ - 1)²` that the docstrings of
`single_loss` and `loss_func` document, whose directional derivative along the
first axis at `p` is `4` — while the `loss_func` closure actually computes the
unsquared `|‖p-x‖ - 1|`, whose directional derivative along the first axis at
`p` is `1 ≠ 4`.  Hence the jacobian is not the gradient of the loss that the
same `opt_func_dec` call returns. -/
theorem c1_jacobian_is_not_gradient_of_loss_func :
    jacobian [(((0 : ℝ), (0 : ℝ)), 1)] (3, 0) = (4, 0) ∧
    HasDerivAt (fun t : ℝ => loss_func [(((0 : ℝ), (0 : ℝ)), 1)] (t, 0)) 1 3 ∧
    HasDerivAt (fun t : ℝ => (norm2 ((t, 0) - ((0 : ℝ), (0 : ℝ))) - 1) ^ 2) 4 3 ∧
    (1 : ℝ) ≠ 4 := by
  have hmem : Set.Ioi (1 : ℝ) ∈ nhds (3 : ℝ) := isOpen_Ioi.mem_nhds (by norm_num)
  refine ⟨?_, ?_, ?_, by norm_num⟩
  · have hd : norm2 (((3 : ℝ), (0 : ℝ)) - ((0 : ℝ), (0 : ℝ))) = 3 := norm2_axis (by norm_num)
    show ((0 : ℝ × ℝ) +
        (2 * (norm2 (((3 : ℝ), (0 : ℝ)) - ((0 : ℝ), (0 : ℝ))) - 1) * ((1 : ℝ) / 2) *
          (1 / norm2 (((3 : ℝ), (0 : ℝ)) - ((0 : ℝ), (0 : ℝ)))) * 2) •
          (((3 : ℝ), (0 : ℝ)) - ((0 : ℝ), (0 : ℝ)))) = (4, 0)
    rw [hd]
    simp [Prod.ext_iff]
    norm_num
  · have hev : (fun t : ℝ => loss_func [(((0 : ℝ), (0 : ℝ)), 1)] (t, 0)) =ᶠ[nhds 3]
        fun t : ℝ => t - 1 := by
      filter_upwards [hmem] with t ht
      have ht0 : (0 : ℝ) < t := lt_trans one_pos ht
      show loss_func [(((0 : ℝ), (0 : ℝ)), 1)] (t, 0) = t - 1
      unfold loss_func single_loss
      rw [List.map_cons, List.map_nil, List.sum_cons, List.sum_nil]
      show |norm2 ((t, 0) - ((0 : ℝ), (0 : ℝ))) - 1| + 0 = t - 1
      rw [norm2_axis ht0, abs_of_nonneg (by have h1 := Set.mem_Ioi.mp ht; linarith)]
      ring
    exact (Filter.EventuallyEq.hasDerivAt_iff hev).mpr ((hasDerivAt_id 3).sub_const 1)
  · have hev : (fun t : ℝ => (norm2 ((t, 0) - ((0 : ℝ), (0 : ℝ))) - 1) ^ 2) =ᶠ[nhds 3]
        fun t : ℝ => (t - 1) ^ 2 := by
      filter_upwards [hmem] with t ht
      rw [norm2_axis (lt_trans one_pos ht)]
    have hg : HasDerivAt (fun t : ℝ => (t - 1) ^ 2) 4 3 := by
      have h := ((hasDerivAt_id (3 : ℝ)).sub_const 1).pow 2
      norm_num at h
      exact h
    exact (Filter.EventuallyEq.hasDerivAt_iff hev).mpr hg

end MinlatR
